import Mathlib

/-!
Shallow embedding of the field dependency / notification engine of
`src/src/fields/SoField.cpp` (the Coin `SoField` class).

Modelling conventions:

* Object identity is by index: fields, engine outputs (`SoEngineOutput`) and
  field containers (`SoFieldContainer`) live in lists inside a `World`, and
  pointers become `Nat` indices.  A dereference of an id that is not in the
  world yields `none` ("outside the model"); valid C++ executions never do
  this, since pointers there are live.
* `SoField::statusbits` is a bitmask in the source; each flag bit is modelled
  as a named `Bool` field (`FLAG_ISDEFAULT` -> `isdefault`, `FLAG_IGNORE` ->
  `ignored`, `FLAG_ENABLECONNECTS` -> `enableconnects`, `FLAG_NEEDEVALUATION`
  -> `dirty`, `FLAG_READONLY` -> `readonly`, `FLAG_DONOTIFY` -> `donotify`,
  `FLAG_ISDESTRUCTING` -> `destructing`, `FLAG_ISEVALUATING` -> `evaluating`,
  `FLAG_ISNOTIFIED` -> `isnotified`, `FLAG_TYPEMASK` -> `fieldTypeTag`).
  `FLAG_EXTSTORAGE` is the discriminant of the multiplexed pointer member and
  is modelled by the constructor of `FieldRep` below.
* The single pointer member of `SoField` is multiplexed (see the
  `SoConnectStorage` comment in the source: the `SoConnectStorage` pointer is
  swapped in "where the field container pointer used to be").  `FieldRep`
  models it: `plain c` is the direct (possibly null) container pointer, and
  `ext s` is the extended-storage pointer (never null once allocated).
* The concrete value held by a field subclass is abstracted to a single
  `Nat` (`value`); `copyFrom`/`readValue` copy or set it.
* `SoType` is abstracted to `Nat`, one code per concrete field type; the
  `SoDB::getConverter` registry is the list of registered (from, to) pairs.
* Recursive notification is defined with explicit fuel bounding the
  recursion depth; `none` means the fuel ran out (or an execution left the
  model, e.g. a debug-build `assert` fired or external converter-engine
  machinery not present under `src/` was reached).
* Ghost instrumentation (never read by the embedded code itself):
  `Field.marks` counts the dirty-markings performed by `SoField::notify`, and
  `World.passes` counts the `SoDB::startNotify()` pass brackets.
-/

/-- The kinds of records in an auditor list (`SoNotRec::Type`). -/
inductive AudType where
  | engine
  | container
  | sensor
  | field
deriving DecidableEq, Repr

/-- The extended side record `SoConnectStorage`: owning container, master
field list, master engine-output list, slave list, auditor list and the
master-to-converter dictionary.  Converter-dictionary keys are `(isPort, id)`
pairs since in the source the key is a raw pointer that may denote either an
`SoField` or an `SoEngineOutput`. -/
structure SoConnectStorage where
  container : Option Nat
  fieldtype : Nat
  masterfields : List Nat
  masterengineouts : List Nat
  slaves : List Nat
  auditors : List (AudType × Nat)
  maptoconverter : List ((Bool × Nat) × Nat)
deriving DecidableEq, Repr

/-- The multiplexed pointer member of `SoField`: either the direct container
pointer (possibly null) or the extended-storage pointer.  The constructor
plays the role of the `FLAG_EXTSTORAGE` status bit. -/
inductive FieldRep where
  | plain (container : Option Nat)
  | ext (s : SoConnectStorage)
deriving DecidableEq, Repr

/-- One `SoField` instance: its dynamic type id, its (abstracted) value, the
status bits, and the multiplexed container/storage pointer.  `marks` is ghost
instrumentation counting dirty-markings done by `notify`. -/
structure SoField where
  fieldtype : Nat
  value : Nat
  fieldTypeTag : Nat
  isdefault : Bool
  ignored : Bool
  enableconnects : Bool
  dirty : Bool
  readonly : Bool
  donotify : Bool
  destructing : Bool
  evaluating : Bool
  isnotified : Bool
  rep : FieldRep
  marks : Nat
deriving DecidableEq, Repr

/-- A freshly constructed field (`SoField::SoField`): `FLAG_DONOTIFY`,
`FLAG_ISDEFAULT` and `FLAG_ENABLECONNECTS` set, null container pointer. -/
def SoField.init (ty : Nat) : SoField :=
  { fieldtype := ty, value := 0, fieldTypeTag := 0,
    isdefault := true, ignored := false, enableconnects := true,
    dirty := false, readonly := false, donotify := true,
    destructing := false, evaluating := false, isnotified := false,
    rep := .plain none, marks := 0 }

instance : Inhabited SoField := ⟨SoField.init 0⟩

/-- An `SoEngineOutput` (external to `src/`, modelled at its interface):
connection type tag, enable flag, produced value, connected slave fields and
owning engine container. -/
structure SoEngineOutput where
  fieldtype : Nat
  enabled : Bool
  value : Nat
  connections : List Nat
  container : Option Nat
deriving DecidableEq, Repr

/-- An `SoFieldContainer` at the interface needed here: whether its dynamic
type is derived from `SoFieldConverter`. -/
structure SoFieldContainer where
  isConverter : Bool
deriving DecidableEq, Repr

/-- The world: all live fields, engine outputs and containers, the
`SoDB::getConverter` registry of (fromType, toType) pairs, and a ghost
counter of started notification passes. -/
structure World where
  fields : List SoField
  ports : List SoEngineOutput
  containers : List SoFieldContainer
  registry : List (Nat × Nat)
  passes : Nat
deriving DecidableEq, Repr

/-- Dereference a field id. -/
def getF (w : World) (i : Nat) : Option SoField := w.fields[i]?

/-- Store a field record back at an id (no-op when out of range, which valid
executions never do). -/
def setF (w : World) (i : Nat) (f : SoField) : World :=
  { w with fields := w.fields.set i f }

/-- Dereference an engine-output id. -/
def getP (w : World) (i : Nat) : Option SoEngineOutput := w.ports[i]?

/-- Store an engine output back at an id. -/
def setP (w : World) (i : Nat) (p : SoEngineOutput) : World :=
  { w with ports := w.ports.set i p }

/-- Dereference a container id. -/
def getC (w : World) (i : Nat) : Option SoFieldContainer := w.containers[i]?

/-- The `SoConnectStorage` of a field when extended storage is live. -/
def SoField.storage? (f : SoField) : Option SoConnectStorage :=
  match f.rep with
  | .plain _ => none
  | .ext s => some s

/-- `SoField::hasExtendedStorage` (the `FLAG_EXTSTORAGE` bit). -/
def SoField.hasExtendedStorage (f : SoField) : Bool :=
  match f.rep with
  | .plain _ => false
  | .ext _ => true

/-- Master-field list of a field (empty without extended storage, matching
every use site, which guards on `hasExtendedStorage`). -/
def masterfieldsOf (w : World) (i : Nat) : List Nat :=
  match getF w i with
  | none => []
  | some f =>
    match f.rep with
    | .plain _ => []
    | .ext s => s.masterfields

/-- Master engine-output list of a field. -/
def masterengineoutsOf (w : World) (i : Nat) : List Nat :=
  match getF w i with
  | none => []
  | some f =>
    match f.rep with
    | .plain _ => []
    | .ext s => s.masterengineouts

/-- Slave list of a field. -/
def slavesOf (w : World) (i : Nat) : List Nat :=
  match getF w i with
  | none => []
  | some f =>
    match f.rep with
    | .plain _ => []
    | .ext s => s.slaves

/-- Auditor list of a field. -/
def auditorsOf (w : World) (i : Nat) : List (AudType × Nat) :=
  match getF w i with
  | none => []
  | some f =>
    match f.rep with
    | .plain _ => []
    | .ext s => s.auditors

/-- `SoField::isConnectedFromField`: extended storage with a non-empty
master-field list. -/
def isConnectedFromFieldF (w : World) (i : Nat) : Bool :=
  match getF w i with
  | none => false
  | some f =>
    match f.rep with
    | .plain _ => false
    | .ext s => s.masterfields.length > 0

/-- `SoField::isConnectedFromEngine`: extended storage with a non-empty
master engine-output list. -/
def isConnectedFromEngineF (w : World) (i : Nat) : Bool :=
  match getF w i with
  | none => false
  | some f =>
    match f.rep with
    | .plain _ => false
    | .ext s => s.masterengineouts.length > 0

/-- `SoField::isConnected`. -/
def isConnectedF (w : World) (i : Nat) : Bool :=
  isConnectedFromFieldF w i || isConnectedFromEngineF w i

/-- `SoField::getNumConnections`. -/
def getNumConnectionsF (w : World) (i : Nat) : Nat :=
  match getF w i with
  | none => 0
  | some f =>
    match f.rep with
    | .plain _ => 0
    | .ext s => s.masterfields.length

/-- `SoField::getConnections` (replaces, not appends: the result is exactly
the master-field list, or empty without extended storage). -/
def getConnectionsF (w : World) (i : Nat) : List Nat :=
  match getF w i with
  | none => []
  | some f =>
    match f.rep with
    | .plain _ => []
    | .ext s => s.masterfields

/-- `SoField::getConnectedField`: the master of the last field connection
made (`masterfields[nrmasters - 1]`), `none` when there is none. -/
def getConnectedFieldF (w : World) (i : Nat) : Option Nat :=
  match getF w i with
  | none => none
  | some f =>
    match f.rep with
    | .plain _ => none
    | .ext s =>
      if s.masterfields.length < 1 then none
      else s.masterfields.getLast?

/-- `SoField::getConnectedEngine`: the last engine-output master, if any. -/
def getConnectedEngineF (w : World) (i : Nat) : Option Nat :=
  match getF w i with
  | none => none
  | some f =>
    match f.rep with
    | .plain _ => none
    | .ext s =>
      if s.masterengineouts.length < 1 then none
      else s.masterengineouts.getLast?

/-- `SoField::getForwardConnections`: the slave list. -/
def getForwardConnectionsF (w : World) (i : Nat) : List Nat :=
  match getF w i with
  | none => []
  | some f =>
    match f.rep with
    | .plain _ => []
    | .ext s => s.slaves

/-- `SoField::getContainer`: the direct pointer, or the container slot of the
extended storage. -/
def getContainerF (w : World) (i : Nat) : Option Nat :=
  match getF w i with
  | none => none
  | some f =>
    match f.rep with
    | .plain c => c
    | .ext s => s.container

/-- The raw multiplexed pointer test `if (this->container) ...` used by
`touch` and `valueChanged`: with extended storage live, the pointer holds the
(non-null) `SoConnectStorage` address, so the test is true regardless of the
owning container. -/
def ptrNonNullF (w : World) (i : Nat) : Bool :=
  match getF w i with
  | none => false
  | some f =>
    match f.rep with
    | .plain c => c.isSome
    | .ext _ => true

/-- `SoField::setContainer`: store the container in whichever representation
is live, then `setDefault(TRUE)`. -/
def setContainerF (w : World) (i : Nat) (cont : Option Nat) : World :=
  match getF w i with
  | none => w
  | some f =>
    let f :=
      match f.rep with
      | .plain _ => { f with rep := .plain cont }
      | .ext s => { f with rep := .ext { s with container := cont } }
    setF w i { f with isdefault := true }

/-- `SoField::setDefault` (a plain `changeStatusBits`). -/
def setDefaultF (w : World) (i : Nat) (b : Bool) : World :=
  match getF w i with
  | none => w
  | some f => setF w i { f with isdefault := b }

/-- `SoField::setDirty` (a plain `changeStatusBits` on `FLAG_NEEDEVALUATION`). -/
def setDirtyF (w : World) (i : Nat) (b : Bool) : World :=
  match getF w i with
  | none => w
  | some f => setF w i { f with dirty := b }

/-- `SoField::extendStorageIfNecessary`: on first need, allocate the side
record, moving the direct container pointer (and the dynamic type) into it. -/
def extendStorageF (w : World) (i : Nat) : World :=
  match getF w i with
  | none => w
  | some f =>
    match f.rep with
    | .ext _ => w
    | .plain c =>
      setF w i { f with rep := FieldRep.ext ⟨c, f.fieldtype, [], [], [], [], []⟩ }

/-- `SbPList::removeItem`: find the first occurrence and remove it; removing
an absent item is an invariant violation (a debug `assert`), modelled as
leaving the model. -/
def removeItemF (l : List Nat) (x : Nat) : Option (List Nat) :=
  if x ∈ l then some (l.erase x) else none

/-- `SoAuditorList::remove`: same discipline for (object, type) entries. -/
def removeAudItemF (l : List (AudType × Nat)) (x : AudType × Nat) :
    Option (List (AudType × Nat)) :=
  if x ∈ l then some (l.erase x) else none

/-- `SoField::addAuditor`: extend storage if necessary and append the record
(`connectionStatusChanged` is an empty default hook). -/
def addAuditorF (w : World) (i : Nat) (a : AudType × Nat) : Option World :=
  let w := extendStorageF w i
  match getF w i with
  | none => none
  | some f =>
    match f.rep with
    | .plain _ => none
    | .ext s => some (setF w i { f with rep := .ext { s with auditors := s.auditors ++ [a] } })

/-- `SoField::removeAuditor`: asserts extended storage, removes the entry. -/
def removeAuditorF (w : World) (i : Nat) (a : AudType × Nat) : Option World :=
  match getF w i with
  | none => none
  | some f =>
    match f.rep with
    | .plain _ => none
    | .ext s => do
      let l ← removeAudItemF s.auditors a
      some (setF w i { f with rep := .ext { s with auditors := l } })

/-- Lookup in the converter dictionary (`SoConnectStorage::findConverter`). -/
def findConverterL (m : List ((Bool × Nat) × Nat)) (k : Bool × Nat) : Option Nat :=
  (m.find? (fun e => e.1 = k)).map (·.2)

/-- The `SoDB::getConverter` registry lookup: is a converter type registered
for the ordered type pair? -/
def registryHas (reg : List (Nat × Nat)) (fromTy toTy : Nat) : Bool :=
  (fromTy, toTy) ∈ reg

/-- Ghost-instrumented dirty marking: the `setDirty(TRUE)` performed inside
`SoField::notify`, bumping the per-field mark counter. -/
def markDirtyF (w : World) (i : Nat) : World :=
  match getF w i with
  | none => w
  | some f => setF w i { f with dirty := true, marks := f.marks + 1 }

/-- Set or clear the `FLAG_ISNOTIFIED` re-entrancy guard bit. -/
def setNotifiedF (w : World) (i : Nat) (b : Bool) : World :=
  match getF w i with
  | none => w
  | some f => setF w i { f with isnotified := b }

/-- The dirty-marking step of `SoField::notify`: when the incoming list has
a first record (this field is not the origin of the pass), mark this field
dirty — unconditionally, before and regardless of the notify-enabled test. -/
def notifyMark (w : World) (i nl : Nat) : World :=
  if nl ≠ 0 then markDirtyF w i else w

/-- The state entering the propagation block of `SoField::notify`: the
dirty-marking step followed by setting the `FLAG_ISNOTIFIED` guard. -/
def notifyEnter (w : World) (i nl : Nat) : World :=
  setNotifiedF (notifyMark w i nl) i true

/-- The two alternating stages of a notification pass: notifying one field
(`SoField::notify`) and walking an auditor list (`SoAuditorList::notify` as
used from `SoField::notifyAuditors`). -/
inductive NTask where
  | one (i : Nat)
  | many (l : List (AudType × Nat))
deriving DecidableEq, Repr

/-- `SoField::notify(SoNotList *)` together with the auditor-list walk, as
one fuel-indexed recursion (structural on the fuel, so that concrete runs
compute).  The notification list argument is modelled by its length: the
only inspections the source makes are `getFirstRec()` (emptiness) and
`append` (the record contents and `setLastType` are consumed only by
external auditors).  `none` means the fuel ran out.

`one i` is `SoField::notify`, line for line: return at once when
`FLAG_ISNOTIFIED` is set; mark dirty when the list has a first record (this
field is not the origin of the pass); when notification is enabled, set
`FLAG_ISNOTIFIED`, append a record for the owning container, notify the
container (external `SoFieldContainer::notify`, outside the embedded field
state) and the auditors, then clear `FLAG_ISNOTIFIED`.

`many l` walks an auditor list in insertion order; `FIELD`-type auditors
are fields of this model and are notified recursively, the other kinds
(engine outputs, sensors, containers) are external components whose
notification does not touch the embedded field state. -/
def notifyT : Nat → World → NTask → Nat → Option World
  | 0, _, _, _ => none
  | fuel + 1, w, NTask.one i, nl =>
    match getF w i with
    | none => none
    | some f =>
      if f.isnotified then some w
      else
        if f.donotify then
          match notifyT fuel (notifyEnter w i nl)
              (NTask.many (auditorsOf (notifyEnter w i nl) i)) (nl + 1) with
          | none => none
          | some w2 => some (setNotifiedF w2 i false)
        else some (notifyMark w i nl)
  | _ + 1, w, NTask.many [], _ => some w
  | fuel + 1, w, NTask.many ((ty, aid) :: rest), nl =>
    match (if ty = AudType.field then notifyT fuel w (NTask.one aid) nl else some w) with
    | none => none
    | some w => notifyT fuel w (NTask.many rest) nl

/-- `SoField::notify` proper. -/
def notifyF (fuel : Nat) (w : World) (i nl : Nat) : Option World :=
  notifyT fuel w (NTask.one i) nl

/-- `SoField::startNotify`: bracket one pass with `SoDB::startNotify` /
`SoDB::endNotify` (ghost pass counter) and notify with a fresh empty list. -/
def startNotifyF (fuel : Nat) (w : World) (i : Nat) : Option World :=
  notifyF fuel { w with passes := w.passes + 1 } i 0

/-- `SoField::touch`: `if (this->container) this->startNotify();` — the test
is on the raw multiplexed pointer. -/
def touchF (fuel : Nat) (w : World) (i : Nat) : Option World :=
  if ptrNonNullF w i then startNotifyF fuel w i else some w

/-- Set or clear `FLAG_READONLY`. -/
def setReadonlyF (w : World) (i : Nat) (b : Bool) : World :=
  match getF w i with
  | none => w
  | some f => setF w i { f with readonly := b }

/-- `SoField::valueChanged(SbBool resetdefault)`: guarded by the
`FLAG_READONLY` re-entrancy bit; clears dirty, optionally clears the default
flag, starts a pass when the multiplexed pointer is non-null, then drops the
guard bit. -/
def valueChangedF (fuel : Nat) (w : World) (i : Nat) (resetdefault : Bool) :
    Option World :=
  match getF w i with
  | none => none
  | some f =>
    if f.readonly then some w
    else
      let w := setReadonlyF w i true
      let w := setDirtyF w i false
      let w := if resetdefault then setDefaultF w i false else w
      match (if ptrNonNullF w i then startNotifyF fuel w i else some w) with
      | none => none
      | some w => some (setReadonlyF w i false)

/-- `SoField::setIgnored`: change the bit; when it actually changed, run
`valueChanged(FALSE)`. -/
def setIgnoredF (fuel : Nat) (w : World) (i : Nat) (b : Bool) : Option World :=
  match getF w i with
  | none => none
  | some f =>
    if f.ignored = b then some w
    else valueChangedF fuel (setF w i { f with ignored := b }) i false

/-- Write a value into a field (used by the spec-modelled engine pull). -/
def setValueF (w : World) (i : Nat) (v : Nat) : World :=
  match getF w i with
  | none => w
  | some f => setF w i { f with value := v }

/-- Modelled from the spec: `SoEngine::evaluateWrapper` of the engine owning
an output port is not under `src/`; per the spec, "the value is produced as
a side effect of that component's own pull, not copied field-to-field" — so
the pull writes the port's current value into every field connected to the
port, and touches nothing else of the embedded field state. -/
def engineEvaluateWrapperF (w : World) (p : SoEngineOutput) : World :=
  p.connections.foldl (fun w g => setValueF w g p.value) w

/-- Set or clear `FLAG_ISEVALUATING`. -/
def setEvaluatingF (w : World) (i : Nat) (b : Bool) : World :=
  match getF w i with
  | none => w
  | some f => setF w i { f with evaluating := b }

/-- `SoField::evaluateConnection`.  Field branch: take the most recently
added master; skip the pull when the master is destructing or itself
evaluating (cycle break); with a converter the pull is the external
converter engine's `evaluateWrapper` (not modelled — leaves the model);
otherwise copy the master's value with notification disabled around
`copyFrom` and the old setting restored.  Engine branch: most recently
added port; converter check likewise; otherwise the port's owning component
evaluates itself.  Reaching neither branch is `assert(0)`. -/
def evaluateConnectionF (w : World) (i : Nat) : Option World :=
  match getF w i with
  | none => none
  | some f =>
    if isConnectedFromFieldF w i then
      match f.rep with
      | .plain _ => none
      | .ext s =>
        match s.masterfields.getLast? with
        | none => none
        | some m =>
          match getF w m with
          | none => none
          | some fm =>
            if !fm.destructing && !fm.evaluating then
              match findConverterL s.maptoconverter (false, m) with
              | some _ => none
              | none =>
                let oldnotify := f.donotify
                let f1 := { f with donotify := false }
                let f2 := { f1 with value := fm.value }
                some (setF w i { f2 with donotify := oldnotify })
            else some w
    else if isConnectedFromEngineF w i then
      match f.rep with
      | .plain _ => none
      | .ext s =>
        match s.masterengineouts.getLast? with
        | none => none
        | some p =>
          match getP w p with
          | none => none
          | some pt =>
            match findConverterL s.maptoconverter (true, p) with
            | some _ => none
            | none => some (engineEvaluateWrapperF w pt)
    else none

/-- `SoField::evaluate`: no-op when destructing, not dirty, or not
connected; `assert(!FLAG_ISEVALUATING)` against re-entrant evaluation;
otherwise bracket `evaluateConnection` with the evaluating guard and clear
the dirty flag. -/
def evaluateF (w : World) (i : Nat) : Option World :=
  match getF w i with
  | none => none
  | some f =>
    if f.destructing then some w
    else if f.dirty = false then some w
    else if isConnectedF w i = false then some w
    else if f.evaluating then none
    else
      let w := setEvaluatingF w i true
      match evaluateConnectionF w i with
      | none => none
      | some w =>
        let w := setEvaluatingF w i false
        some (setDirtyF w i false)

/-- `SoField::disconnect(SoField * master)`: evaluate first (flush the
pending pull), then decouple: unless this field's container is a converter,
remove this field from the master's slave list; remove the master from the
master-field list; with a converter in between, the decoupling runs through
the external converter engine (not modelled); otherwise remove this field
from the master's auditors. -/
def disconnectFieldF (w : World) (i m : Nat) : Option World :=
  match evaluateF w i with
  | none => none
  | some w =>
    match getContainerF w i with
    | none => none
    | some c =>
      match getC w c with
      | none => none
      | some cc =>
        let step1 : Option World :=
          if cc.isConverter then some w
          else
            match getF w m with
            | none => none
            | some fm =>
              match fm.rep with
              | .plain _ => none
              | .ext s =>
                match removeItemF s.slaves i with
                | none => none
                | some sl => some (setF w m { fm with rep := .ext { s with slaves := sl } })
        match step1 with
        | none => none
        | some w =>
          match getF w i with
          | none => none
          | some f =>
            match f.rep with
            | .plain _ => none
            | .ext s =>
              match removeItemF s.masterfields m with
              | none => none
              | some mf =>
                let w := setF w i { f with rep := .ext { s with masterfields := mf } }
                match findConverterL s.maptoconverter (false, m) with
                | some _ => none
                | none => removeAuditorF w m (AudType.field, i)

/-- `SoField::disconnect(SoEngineOutput * master)`: when this field is the
input of a converter, the call forwards through the converter's output to
the field on the other side (external converter machinery — not modelled);
otherwise evaluate first when the port is enabled, then remove the port
from the master engine-output list; converter decoupling is external;
otherwise the port drops its connection to this field. -/
def disconnectEngineF (w : World) (i p : Nat) : Option World :=
  match getContainerF w i with
  | none => none
  | some c =>
    match getC w c with
    | none => none
    | some cc =>
      if cc.isConverter then none
      else
        match getP w p with
        | none => none
        | some pt =>
          match (if pt.enabled then evaluateF w i else some w) with
          | none => none
          | some w =>
            match getF w i with
            | none => none
            | some f =>
              match f.rep with
              | .plain _ => none
              | .ext s =>
                match removeItemF s.masterengineouts p with
                | none => none
                | some me =>
                  let w := setF w i { f with rep := .ext { s with masterengineouts := me } }
                  match findConverterL s.maptoconverter (true, p) with
                  | some _ => none
                  | none =>
                    match getP w p with
                    | none => none
                    | some pt =>
                      match removeItemF pt.connections i with
                      | none => none
                      | some conns => some (setP w p { pt with connections := conns })

/-- The first loop of `SoField::disconnect(void)`: while connected from a
field, disconnect from `masterfields[0]` — re-reading index 0 of the live
list on every iteration.  Fuel bounds the number of iterations. -/
def disconnectAllFieldsF : Nat → World → Nat → Option World
  | 0, w, i => if isConnectedFromFieldF w i then none else some w
  | fuel + 1, w, i =>
    match masterfieldsOf w i with
    | [] => some w
    | m :: _ =>
      match disconnectFieldF w i m with
      | none => none
      | some w => disconnectAllFieldsF fuel w i

/-- The second loop of `SoField::disconnect(void)`: while connected from an
engine output, disconnect from `masterengineouts[0]`. -/
def disconnectAllEnginesF : Nat → World → Nat → Option World
  | 0, w, i => if isConnectedFromEngineF w i then none else some w
  | fuel + 1, w, i =>
    match masterengineoutsOf w i with
    | [] => some w
    | p :: _ =>
      match disconnectEngineF w i p with
      | none => none
      | some w => disconnectAllEnginesF fuel w i

/-- `SoField::disconnect(void)`: both loops, then
`assert(this->isConnected() == FALSE)`. -/
def disconnectAllF (fuel : Nat) (w : World) (i : Nat) : Option World :=
  match disconnectAllFieldsF fuel w i with
  | none => none
  | some w =>
    match disconnectAllEnginesF fuel w i with
    | none => none
    | some w => if isConnectedF w i then none else some w

/-- Append a master to this field's `masterfields` (the slave -> master link
of `connectFrom`'s common bookkeeping). -/
def appendMasterFieldF (w : World) (i m : Nat) : Option World :=
  match getF w i with
  | none => none
  | some f =>
    match f.rep with
    | .plain _ => none
    | .ext s => some (setF w i { f with rep := .ext { s with masterfields := s.masterfields ++ [m] } })

/-- Append a slave to a master's `slaves` list (the master -> slave link). -/
def appendSlaveF (w : World) (m i : Nat) : Option World :=
  match getF w m with
  | none => none
  | some fm =>
    match fm.rep with
    | .plain _ => none
    | .ext s => some (setF w m { fm with rep := .ext { s with slaves := s.slaves ++ [i] } })

/-- `SoField::connectFrom(SoField * master, SbBool notnotify, SbBool append)`.
Ensure extended storage on both endpoints; with equal value types link
directly (full `disconnect()` first unless appending, then register this
field as a `FIELD` auditor of the master); with unequal types,
`createConverter` consults the `SoDB::getConverter` registry and the whole
call returns `FALSE` when no converter type is registered (the successful
converter splice instantiates an external `SoFieldConverter` engine — not
modelled).  Common bookkeeping records the master in this field's master
list and, unless the owning container is itself a converter, this field in
the master's slave list.  Unless notification is suppressed or connections
are disabled, mark dirty, clear the default flag and run a full pass. -/
def connectFromF (fuel : Nat) (w : World) (i m : Nat) (notnotify append : Bool) :
    Option (World × Bool) :=
  let w := extendStorageF w i
  let w := extendStorageF w m
  match getF w i, getF w m with
  | some f, some fm =>
    let mastertype := fm.fieldtype
    let thistype := f.fieldtype
    match getContainerF w i with
    | none => none
    | some c =>
      match getC w c with
      | none => none
      | some cc =>
        let containerisconverter := cc.isConverter
        if mastertype = thistype then
          match (if append then some w else disconnectAllF fuel w i) with
          | none => none
          | some w =>
            match addAuditorF w m (AudType.field, i) with
            | none => none
            | some w =>
              match appendMasterFieldF w i m with
              | none => none
              | some w =>
                match (if containerisconverter then some w else appendSlaveF w m i) with
                | none => none
                | some w =>
                  match getF w i with
                  | none => none
                  | some fcur =>
                    if notnotify = false && fcur.enableconnects then
                      let w := setDirtyF w i true
                      let w := setDefaultF w i false
                      match startNotifyF fuel w i with
                      | none => none
                      | some w => some (w, true)
                    else some (w, true)
        else
          if registryHas w.registry mastertype thistype then none
          else some (w, false)
  | _, _ => none

/-- `SoField::appendConnection(SoField *, SbBool)`: `connectFrom` with
append semantics. -/
def appendConnectionF (fuel : Nat) (w : World) (i m : Nat) (notnotify : Bool) :
    Option (World × Bool) :=
  connectFromF fuel w i m notnotify true

/-- The single-character stream tokens of the external `SoInput` reader, as
consumed by `SoField::read`'s ASCII branch.  `readValue` is the virtual
per-subclass value parse: its outcome is an oracle (`valueParsed`), and on
success the stream left behind is `afterValue`; `in->putBack(c)` pushes `c`
back so it is re-read by the next single-character read; `in->eof()` is
stream emptiness.  `connTarget` is the outcome of the external
`SoBase::read` container resolution inside `readConnection`: `none` means
the connection clause failed to parse, `some (isPort, id)` the resolved
master.  `flagsWord` is the binary-mode flags word. -/
structure InStream where
  binary : Bool
  isref : Bool
  refok : Bool
  chars : List Char
  valueParsed : Option Nat
  afterValue : List Char
  connTarget : Option (Bool × Nat)
  flagsWord : Option Nat
deriving DecidableEq, Repr

/-- `SoField::readConnection` at the interface boundary: the container and
master-name parse is external `SoBase::read` machinery (oracle); on
resolution the connection is made with `connectFrom` — note that a failing
`connectFrom` only posts an error, the function still returns `TRUE`.
Engine-output masters would run the `SoEngineOutput` overload of
`connectFrom` (external converter-free path not needed by the claims —
modelled as out of scope). -/
def readConnectionF (fuel : Nat) (w : World) (i : Nat) (ins : InStream) :
    Option (World × Bool) :=
  match ins.connTarget with
  | none => some (w, false)
  | some (isPort, m) =>
    if isPort then none
    else
      match connectFromF fuel w i m false false with
      | none => none
      | some (w, _) => some (w, true)

/-- The trailing connection check shared by both branches of the ASCII path
of `SoField::read`: at end-of-stream do nothing; otherwise read one
character, and on `=` parse the connection (its failure fails the read),
else put the character back. -/
def readConnBlockF (fuel : Nat) (w : World) (i : Nat) (ins : InStream)
    (s : List Char) : Option (World × Bool) :=
  match s with
  | [] => some (w, true)
  | c3 :: _ =>
    if c3 = '=' then
      match readConnectionF fuel w i ins with
      | none => none
      | some (w, ok) => if ok then some (w, true) else some (w, false)
    else some (w, true)

/-- `SoField::read(SoInput *, const SbName &)`.  An `IS`-reference input
returns immediately with the reference outcome.  Otherwise the default and
dirty flags are cleared first, before any attempt to parse the value.
ASCII: read one character; `~` alone is legal and sets the ignored flag;
otherwise put it back and parse the value (failure fails the read), then
check again for a trailing `~`; finally check for an `=` connection clause.
Binary: parse the value, then the flags word and act on the `IGNORED` (0x1),
`CONNECTED` (0x2) and `DEFAULT` (0x4) bits (unknown bits are only a
non-fatal debug warning). -/
def readF (fuel : Nat) (w : World) (i : Nat) (ins : InStream) :
    Option (World × Bool) :=
  if ins.isref || ins.refok = false then some (w, ins.refok)
  else
    let w := setDefaultF w i false
    let w := setDirtyF w i false
    if ins.binary = false then
      match ins.chars with
      | [] => some (w, false)
      | c :: rest =>
        if c = '~' then
          match setIgnoredF fuel w i true with
          | none => none
          | some w => readConnBlockF fuel w i ins rest
        else
          match ins.valueParsed with
          | none => some (w, false)
          | some v =>
            let w := setValueF w i v
            match ins.afterValue with
            | [] => readConnBlockF fuel w i ins []
            | c2 :: r2 =>
              if c2 = '~' then
                match setIgnoredF fuel w i true with
                | none => none
                | some w => readConnBlockF fuel w i ins r2
              else readConnBlockF fuel w i ins (c2 :: r2)
    else
      match ins.valueParsed with
      | none => some (w, false)
      | some v =>
        let w := setValueF w i v
        match ins.flagsWord with
        | none => some (w, false)
        | some flags =>
          match (if flags % 2 = 1 then setIgnoredF fuel w i true else some w) with
          | none => none
          | some w =>
            match (if flags / 2 % 2 = 1 then
                     match readConnectionF fuel w i ins with
                     | none => none
                     | some (w, ok) => if ok then some (w, true) else some (w, false)
                   else some (w, true)) with
            | none => none
            | some (w, ok) =>
              if ok = false then some (w, false)
              else
                let w := if flags / 4 % 2 = 1 then setDefaultF w i true else w
                some (w, true)

theorem getF_setF_self {w : World} {i : Nat} {g : SoField} (f : SoField)
    (h : getF w i = some g) : getF (setF w i f) i = some f := by
  have hlt : i < w.fields.length := by
    by_contra hge
    simp [getF, List.getElem?_eq_none (Nat.le_of_not_lt hge)] at h
  simp [getF, setF, List.getElem?_set_eq_of_lt _ hlt]

theorem getF_setF_ne {i j : Nat} (w : World) (f : SoField) (h : i ≠ j) :
    getF (setF w i f) j = getF w j := by
  simp [getF, setF, List.getElem?_set_ne h]

theorem ports_setF (w : World) (i : Nat) (f : SoField) : (setF w i f).ports = w.ports := rfl

theorem containers_setF (w : World) (i : Nat) (f : SoField) :
    (setF w i f).containers = w.containers := rfl

theorem registry_setF (w : World) (i : Nat) (f : SoField) :
    (setF w i f).registry = w.registry := rfl

theorem passes_setF (w : World) (i : Nat) (f : SoField) : (setF w i f).passes = w.passes := rfl

/-- All observations of one field preserved by a completed notification
except the dirty bit (which is monotone) and the ghost mark counter. -/
def FieldPres (f f' : SoField) : Prop :=
  f'.rep = f.rep ∧ f'.fieldtype = f.fieldtype ∧ f'.value = f.value ∧
  f'.isnotified = f.isnotified ∧ f'.donotify = f.donotify ∧
  f'.enableconnects = f.enableconnects ∧ f'.destructing = f.destructing ∧
  f'.evaluating = f.evaluating ∧ f'.readonly = f.readonly ∧
  f'.isdefault = f.isdefault ∧ f'.ignored = f.ignored ∧
  f'.fieldTypeTag = f.fieldTypeTag ∧
  (f.dirty = true → f'.dirty = true)

/-- What a completed `notify` leaves untouched: everything in the world
except fields' dirty bits (monotone) and ghost marks; in particular the
`FLAG_ISNOTIFIED` guard set is restored. -/
def NotifyPres (w w' : World) : Prop :=
  w'.ports = w.ports ∧ w'.containers = w.containers ∧
  w'.registry = w.registry ∧ w'.passes = w.passes ∧
  ∀ g f, getF w g = some f → ∃ f', getF w' g = some f' ∧ FieldPres f f'

theorem fieldPres_refl (f : SoField) : FieldPres f f := by
  simp [FieldPres]

theorem fieldPres_trans {a b c : SoField} (h1 : FieldPres a b) (h2 : FieldPres b c) :
    FieldPres a c := by
  obtain ⟨r1, t1, v1, n1, d1, e1, x1, ev1, ro1, df1, ig1, tt1, dm1⟩ := h1
  obtain ⟨r2, t2, v2, n2, d2, e2, x2, ev2, ro2, df2, ig2, tt2, dm2⟩ := h2
  refine ⟨r2.trans r1, t2.trans t1, v2.trans v1, n2.trans n1, d2.trans d1,
    e2.trans e1, x2.trans x1, ev2.trans ev1, ro2.trans ro1, df2.trans df1,
    ig2.trans ig1, tt2.trans tt1, fun h => dm2 (dm1 h)⟩

theorem notifyPres_refl (w : World) : NotifyPres w w := by
  refine ⟨rfl, rfl, rfl, rfl, fun g f h => ⟨f, h, fieldPres_refl f⟩⟩

theorem notifyPres_trans {a b c : World} (h1 : NotifyPres a b) (h2 : NotifyPres b c) :
    NotifyPres a c := by
  obtain ⟨p1, c1, r1, s1, f1⟩ := h1
  obtain ⟨p2, c2, r2, s2, f2⟩ := h2
  refine ⟨p2.trans p1, c2.trans c1, r2.trans r1, s2.trans s1, fun g f h => ?_⟩
  obtain ⟨fb, hb, hpb⟩ := f1 g f h
  obtain ⟨fc, hc, hpc⟩ := f2 g fb hb
  exact ⟨fc, hc, fieldPres_trans hpb hpc⟩

theorem notifyPres_markDirty (w : World) (i : Nat) : NotifyPres w (markDirtyF w i) := by
  unfold markDirtyF
  cases hw : getF w i with
  | none => exact notifyPres_refl w
  | some f =>
    refine ⟨rfl, rfl, rfl, rfl, fun g fg hg => ?_⟩
    by_cases hgi : i = g
    · subst hgi
      rw [hw] at hg
      cases hg
      exact ⟨_, getF_setF_self _ hw, by simp [FieldPres]⟩
    · exact ⟨fg, by rw [getF_setF_ne w _ hgi]; exact hg, fieldPres_refl fg⟩

theorem getF_markDirty_self {w : World} {i : Nat} {f : SoField} (h : getF w i = some f) :
    getF (markDirtyF w i) i = some { f with dirty := true, marks := f.marks + 1 } := by
  unfold markDirtyF
  rw [h]
  exact getF_setF_self _ h

theorem getF_markDirty_ne {i g : Nat} (w : World) (h : i ≠ g) :
    getF (markDirtyF w i) g = getF w g := by
  unfold markDirtyF
  cases hw : getF w i with
  | none => rfl
  | some f => exact getF_setF_ne w _ h

theorem getF_setNotified_self {w : World} {i : Nat} {f : SoField} (b : Bool)
    (h : getF w i = some f) :
    getF (setNotifiedF w i b) i = some { f with isnotified := b } := by
  unfold setNotifiedF
  rw [h]
  exact getF_setF_self _ h

theorem getF_setNotified_ne {i g : Nat} (w : World) (b : Bool) (h : i ≠ g) :
    getF (setNotifiedF w i b) g = getF w g := by
  unfold setNotifiedF
  cases hw : getF w i with
  | none => rfl
  | some f => exact getF_setF_ne w _ h

/-- The world components other than `fields` are untouched. -/
def SameOutside (w w' : World) : Prop :=
  w'.ports = w.ports ∧ w'.containers = w.containers ∧
  w'.registry = w.registry ∧ w'.passes = w.passes

theorem sameOutside_markDirty (w : World) (i : Nat) : SameOutside w (markDirtyF w i) := by
  unfold markDirtyF
  cases getF w i <;> exact ⟨rfl, rfl, rfl, rfl⟩

theorem sameOutside_setNotified (w : World) (i : Nat) (b : Bool) :
    SameOutside w (setNotifiedF w i b) := by
  unfold setNotifiedF
  cases getF w i <;> exact ⟨rfl, rfl, rfl, rfl⟩

theorem sameOutside_notifyMark (w : World) (i nl : Nat) :
    SameOutside w (notifyMark w i nl) := by
  unfold notifyMark
  by_cases hnl : nl ≠ 0
  · rw [if_pos hnl]; exact sameOutside_markDirty w i
  · rw [if_neg hnl]; exact ⟨rfl, rfl, rfl, rfl⟩

theorem getF_notifyMark_ne {i g : Nat} (w : World) (nl : Nat) (h : i ≠ g) :
    getF (notifyMark w i nl) g = getF w g := by
  unfold notifyMark
  by_cases hnl : nl ≠ 0
  · rw [if_pos hnl]; exact getF_markDirty_ne w h
  · rw [if_neg hnl]

theorem notifyTPres :
    ∀ (fuel : Nat) (w : World) (t : NTask) (nl : Nat) (w' : World),
      notifyT fuel w t nl = some w' → NotifyPres w w' := by
  intro fuel
  induction fuel with
  | zero => intro w t nl w' h; simp [notifyT] at h
  | succ fuel ih =>
    intro w t nl w' h
    match t with
    | NTask.many [] =>
      simp only [notifyT] at h
      cases h
      exact notifyPres_refl w
    | NTask.many ((ty, aid) :: rest) =>
      simp only [notifyT] at h
      cases hstep : (if ty = AudType.field then notifyT fuel w (NTask.one aid) nl else some w) with
      | none => rw [hstep] at h; cases h
      | some w1 =>
        rw [hstep] at h
        have h1 : NotifyPres w w1 := by
          by_cases hty : ty = AudType.field
          · rw [if_pos hty] at hstep
            exact ih w (NTask.one aid) nl w1 hstep
          · rw [if_neg hty] at hstep
            cases hstep
            exact notifyPres_refl w
        exact notifyPres_trans h1 (ih w1 (NTask.many rest) nl w' h)
    | NTask.one i =>
      simp only [notifyT] at h
      split at h
      · cases h
      case _ f hw =>
        by_cases hn : f.isnotified = true
        · rw [if_pos hn] at h
          cases h
          exact notifyPres_refl w
        · rw [if_neg hn] at h
          by_cases hd : f.donotify = true
          · rw [if_pos hd] at h
            cases hA : notifyT fuel (notifyEnter w i nl)
                (NTask.many (auditorsOf (notifyEnter w i nl) i)) (nl + 1) with
            | none => rw [hA] at h; cases h
            | some w3 =>
              rw [hA] at h
              cases h
              have hPres23 : NotifyPres (notifyEnter w i nl) w3 := ih _ _ _ _ hA
              have hf1 : ∃ f1, getF (notifyMark w i nl) i = some f1 ∧
                  f1.rep = f.rep ∧ f1.fieldtype = f.fieldtype ∧ f1.value = f.value ∧
                  f1.isnotified = f.isnotified ∧ f1.donotify = f.donotify ∧
                  f1.enableconnects = f.enableconnects ∧ f1.destructing = f.destructing ∧
                  f1.evaluating = f.evaluating ∧ f1.readonly = f.readonly ∧
                  f1.isdefault = f.isdefault ∧ f1.ignored = f.ignored ∧
                  f1.fieldTypeTag = f.fieldTypeTag ∧ (f.dirty = true → f1.dirty = true) := by
                unfold notifyMark
                by_cases hnl : nl ≠ 0
                · rw [if_pos hnl]
                  exact ⟨_, getF_markDirty_self hw, by simp⟩
                · rw [if_neg hnl]
                  exact ⟨f, hw, by simp⟩
              obtain ⟨f1, hgf1, hr1, ht1, hv1, hn1, hd1, he1, hx1, hev1, hro1, hdf1, hig1, htt1, hdm1⟩ := hf1
              have hgf2 : getF (notifyEnter w i nl) i = some { f1 with isnotified := true } :=
                getF_setNotified_self true hgf1
              obtain ⟨f3, hgf3, hp3⟩ := hPres23.2.2.2.2 i _ hgf2
              obtain ⟨r3, t3, v3, n3, d3, e3, x3, ev3, ro3, df3, ig3, tt3, dm3⟩ := hp3
              have hso1 : SameOutside w (notifyMark w i nl) := sameOutside_notifyMark w i nl
              have hso2 : SameOutside (notifyMark w i nl) (notifyEnter w i nl) :=
                sameOutside_setNotified _ i true
              have hso4 : SameOutside w3 (setNotifiedF w3 i false) := sameOutside_setNotified w3 i false
              refine ⟨?_, ?_, ?_, ?_, ?_⟩
              · exact hso4.1.trans (hPres23.1.trans (hso2.1.trans hso1.1))
              · exact hso4.2.1.trans (hPres23.2.1.trans (hso2.2.1.trans hso1.2.1))
              · exact hso4.2.2.1.trans (hPres23.2.2.1.trans (hso2.2.2.1.trans hso1.2.2.1))
              · exact hso4.2.2.2.trans (hPres23.2.2.2.1.trans (hso2.2.2.2.trans hso1.2.2.2))
              · intro g fg hg
                by_cases hgi : i = g
                · subst hgi
                  rw [hw] at hg
                  cases hg
                  refine ⟨{ f3 with isnotified := false }, getF_setNotified_self false hgf3, ?_⟩
                  refine ⟨?_, ?_, ?_, ?_, ?_, ?_, ?_, ?_, ?_, ?_, ?_, ?_, ?_⟩
                  · simpa using r3.trans hr1
                  · simpa using t3.trans ht1
                  · simpa using v3.trans hv1
                  · simp only [Bool.not_eq_true] at hn
                    simpa using hn.symm
                  · simpa using d3.trans hd1
                  · simpa using e3.trans he1
                  · simpa using x3.trans hx1
                  · simpa using ev3.trans hev1
                  · simpa using ro3.trans hro1
                  · simpa using df3.trans hdf1
                  · simpa using ig3.trans hig1
                  · simpa using tt3.trans htt1
                  · intro hdirty
                    simpa using dm3 (hdm1 hdirty)
                · have hg2 : getF (notifyEnter w i nl) g = some fg := by
                    unfold notifyEnter
                    rw [getF_setNotified_ne _ true hgi, getF_notifyMark_ne w nl hgi]
                    exact hg
                  obtain ⟨f3g, hgf3g, hp3g⟩ := hPres23.2.2.2.2 g fg hg2
                  refine ⟨f3g, ?_, hp3g⟩
                  rw [getF_setNotified_ne w3 false hgi]
                  exact hgf3g
          · rw [if_neg hd] at h
            cases h
            unfold notifyMark
            by_cases hnl : nl ≠ 0
            · rw [if_pos hnl]
              exact notifyPres_markDirty w i
            · rw [if_neg hnl]
              exact notifyPres_refl w

theorem notifyPres (fuel : Nat) (w : World) (i nl : Nat) (w' : World)
    (h : notifyF fuel w i nl = some w') : NotifyPres w w' :=
  notifyTPres fuel w (NTask.one i) nl w' h

theorem getF_setDirty_self {w : World} {i : Nat} {f : SoField} (b : Bool)
    (h : getF w i = some f) : getF (setDirtyF w i b) i = some { f with dirty := b } := by
  unfold setDirtyF
  rw [h]
  exact getF_setF_self _ h

theorem getF_setDirty_ne {i g : Nat} (w : World) (b : Bool) (h : i ≠ g) :
    getF (setDirtyF w i b) g = getF w g := by
  unfold setDirtyF
  cases getF w i with
  | none => rfl
  | some f => exact getF_setF_ne w _ h

theorem getF_setDefault_self {w : World} {i : Nat} {f : SoField} (b : Bool)
    (h : getF w i = some f) : getF (setDefaultF w i b) i = some { f with isdefault := b } := by
  unfold setDefaultF
  rw [h]
  exact getF_setF_self _ h

theorem getF_setDefault_ne {i g : Nat} (w : World) (b : Bool) (h : i ≠ g) :
    getF (setDefaultF w i b) g = getF w g := by
  unfold setDefaultF
  cases getF w i with
  | none => rfl
  | some f => exact getF_setF_ne w _ h

theorem getF_setEvaluating_self {w : World} {i : Nat} {f : SoField} (b : Bool)
    (h : getF w i = some f) :
    getF (setEvaluatingF w i b) i = some { f with evaluating := b } := by
  unfold setEvaluatingF
  rw [h]
  exact getF_setF_self _ h

theorem getF_setEvaluating_ne {i g : Nat} (w : World) (b : Bool) (h : i ≠ g) :
    getF (setEvaluatingF w i b) g = getF w g := by
  unfold setEvaluatingF
  cases getF w i with
  | none => rfl
  | some f => exact getF_setF_ne w _ h

theorem getF_setValue_self {w : World} {i : Nat} {f : SoField} (v : Nat)
    (h : getF w i = some f) : getF (setValueF w i v) i = some { f with value := v } := by
  unfold setValueF
  rw [h]
  exact getF_setF_self _ h

theorem getF_setValue_ne {i g : Nat} (w : World) (v : Nat) (h : i ≠ g) :
    getF (setValueF w i v) g = getF w g := by
  unfold setValueF
  cases getF w i with
  | none => rfl
  | some f => exact getF_setF_ne w _ h

/-- C10: for every field and every container `c`, `setContainer(c)` sets the
default-value flag to `TRUE` as a side effect, in addition to making
`getContainer()` return `c`, regardless of the flag's prior state. -/
theorem C10_setContainer_sets_default (w : World) (i : Nat) (f : SoField)
    (h : getF w i = some f) (c : Option Nat) :
    getContainerF (setContainerF w i c) i = c ∧
    (getF (setContainerF w i c) i).map SoField.isdefault = some true := by
  cases hr : f.rep with
  | plain c0 =>
    constructor
    · simp only [setContainerF, h, hr, getContainerF]
      rw [getF_setF_self _ h]
    · simp only [setContainerF, h, hr]
      rw [getF_setF_self _ h]
      rfl
  | ext s =>
    constructor
    · simp only [setContainerF, h, hr, getContainerF]
      rw [getF_setF_self _ h]
    · simp only [setContainerF, h, hr]
      rw [getF_setF_self _ h]
      rfl

/-- Concrete world for the C10 witness: a single field of type 5 with a
non-default prior state, one container. -/
def c10w : World :=
  ⟨[{ SoField.init 5 with isdefault := false, dirty := true }], [], [⟨false⟩], [], 0⟩

theorem C10_setContainer_sets_default_witness :
    getF c10w 0 = some { SoField.init 5 with isdefault := false, dirty := true } ∧
    getContainerF (setContainerF c10w 0 (some 0)) 0 = some 0 ∧
    (getF (setContainerF c10w 0 (some 0)) 0).map SoField.isdefault = some true := by
  have h : getF c10w 0 = some { SoField.init 5 with isdefault := false, dirty := true } := by
    decide
  have hmain := C10_setContainer_sets_default c10w 0 _ h (some 0)
  exact ⟨h, hmain.1, hmain.2⟩

/-- Concrete world refuting C9: one field that has extended storage (it
picked up an auditor, say a sensor was attached) but whose owning-container
slot is null. -/
def c9w : World :=
  ⟨[{ SoField.init 0 with
      rep := FieldRep.ext ⟨none, 0, [], [], [], [(AudType.sensor, 0)], []⟩ }],
   [], [], [], 0⟩

/-- C9 is false as stated: this field has no owning container
(`getContainer()` is null), yet `touch()` is not a no-op — it starts a
notification pass (the `SoDB::startNotify()` bracket runs), because the test
in `touch` is on the raw multiplexed pointer, which holds the (non-null)
extended-storage address. -/
theorem C9_counterexample :
    getContainerF c9w 0 = none ∧
    (touchF 3 c9w 0).map World.passes = some (c9w.passes + 1) := by
  constructor
  · decide
  · decide

/-- C9 (amended): `touch()` starts a notification pass iff the raw
multiplexed pointer is non-null — i.e. iff the field has extended storage
(even with a null owning container) or is in plain representation with a
container set.  A plain-representation field with no container is inert,
and every field with an owning container does start a pass. -/
theorem C9_touch_starts_pass_iff_ptr (fuel : Nat) (w : World) (i : Nat) :
    (∀ f, getF w i = some f → f.rep = FieldRep.plain none → touchF fuel w i = some w) ∧
    (ptrNonNullF w i = true →
      ∀ w', touchF fuel w i = some w' → w'.passes = w.passes + 1) ∧
    (getContainerF w i ≠ none →
      ∀ w', touchF fuel w i = some w' → w'.passes = w.passes + 1) := by
  have hkey : ptrNonNullF w i = true →
      ∀ w', touchF fuel w i = some w' → w'.passes = w.passes + 1 := by
    intro hp w' hrun
    unfold touchF at hrun
    rw [hp, if_pos rfl] at hrun
    unfold startNotifyF at hrun
    have hpres := notifyPres fuel { w with passes := w.passes + 1 } i 0 w' hrun
    exact hpres.2.2.2.1
  refine ⟨?_, hkey, ?_⟩
  · intro f hf hrep
    simp [touchF, ptrNonNullF, hf, hrep]
  · intro hc
    apply hkey
    unfold ptrNonNullF
    unfold getContainerF at hc
    cases hf : getF w i with
    | none => rw [hf] at hc; exact absurd rfl hc
    | some f =>
      simp only [hf] at hc ⊢
      cases hr : f.rep with
      | plain c0 =>
        simp only [hr] at hc ⊢
        simp [Option.isSome_iff_ne_none, hc]
      | ext s => simp [hr]

/-- Concrete world for the C9 witness: one plain field owned by container 0. -/
def c9wb : World := ⟨[{ SoField.init 0 with rep := FieldRep.plain (some 0) }], [], [⟨false⟩], [], 0⟩

theorem C9_touch_starts_pass_iff_ptr_witness :
    ptrNonNullF c9wb 0 = true ∧ (touchF 3 c9wb 0).map World.passes = some (c9wb.passes + 1) := by
  refine ⟨by decide, ?_⟩
  have hkey := (C9_touch_starts_pass_iff_ptr 3 c9wb 0).2.1 (by decide)
  cases heq : touchF 3 c9wb 0 with
  | none => exact absurd heq (by decide)
  | some w' => simp [hkey w' heq]

theorem getF_notifyMark_self {w : World} {i : Nat} {f : SoField} {nl : Nat}
    (h : getF w i = some f) (hnl : nl ≠ 0) :
    getF (notifyMark w i nl) i = some { f with dirty := true, marks := f.marks + 1 } := by
  unfold notifyMark
  rw [if_pos hnl]
  exact getF_markDirty_self h

/-- C4: in `notify`, a field that is not the origin of the pass (the incoming
trace has a first record) gets its dirty flag set — with no hypothesis on the
notify-enabled flag; and when notification is disabled, the whole call is
exactly the dirty-marking step, i.e. disabling notification only suppresses
the onward propagation, never the local marking. -/
theorem C4_notify_marks_dirty_regardless (fuel : Nat) (w : World) (i nl : Nat)
    (f : SoField) (w' : World)
    (hf : getF w i = some f) (hguard : f.isnotified = false) (hnl : nl ≠ 0)
    (hrun : notifyF fuel w i nl = some w') :
    (getF w' i).map SoField.dirty = some true ∧
    (f.donotify = false → w' = notifyMark w i nl) := by
  match fuel with
  | 0 => simp [notifyF, notifyT] at hrun
  | fuel + 1 =>
    unfold notifyF notifyT at hrun
    simp only [hf, hguard, Bool.false_eq_true, if_false] at hrun
    by_cases hd : f.donotify = true
    · rw [if_pos hd] at hrun
      cases hA : notifyT fuel (notifyEnter w i nl)
          (NTask.many (auditorsOf (notifyEnter w i nl) i)) (nl + 1) with
      | none => rw [hA] at hrun; cases hrun
      | some w3 =>
        rw [hA] at hrun
        cases hrun
        have hgf2 : getF (notifyEnter w i nl) i =
            some { { f with dirty := true, marks := f.marks + 1 } with isnotified := true } :=
          getF_setNotified_self true (getF_notifyMark_self hf hnl)
        have hPres := notifyTPres fuel _ _ _ _ hA
        obtain ⟨f3, hgf3, hp3⟩ := hPres.2.2.2.2 i _ hgf2
        constructor
        · rw [getF_setNotified_self false hgf3]
          have hdirty : f3.dirty = true := hp3.2.2.2.2.2.2.2.2.2.2.2.2 (by rfl)
          simp [hdirty]
        · intro hcontra
          rw [hcontra] at hd
          cases hd
    · rw [if_neg hd] at hrun
      cases hrun
      refine ⟨?_, fun _ => rfl⟩
      rw [getF_notifyMark_self hf hnl]
      rfl

/-- Concrete world for the C4 witness: one notify-disabled, clean field. -/
def c4w : World :=
  ⟨[{ SoField.init 7 with donotify := false }], [], [], [], 0⟩

theorem C4_notify_marks_dirty_regardless_witness :
    getF c4w 0 = some { SoField.init 7 with donotify := false } ∧
    (1 : Nat) ≠ 0 ∧
    notifyF 1 c4w 0 1 = some (notifyMark c4w 0 1) ∧
    (getF (notifyMark c4w 0 1) 0).map SoField.dirty = some true := by
  have hf : getF c4w 0 = some { SoField.init 7 with donotify := false } := by decide
  have hrun : notifyF 1 c4w 0 1 = some (notifyMark c4w 0 1) := by decide
  have hmain := C4_notify_marks_dirty_regardless 1 c4w 0 1 _ _ hf (by decide) (by decide) hrun
  exact ⟨hf, by decide, hrun, hmain.1⟩

/-- C6: re-entrant evaluation is caught by the `assert` — whenever a field is
already flagged as evaluating and `evaluate` would actually have to run (it
is dirty, connected, and not destructing), the call is a fatal invariant
violation (modelled by leaving the model), never silently tolerated. -/
theorem C6_reentrant_evaluate_asserts (w : World) (i : Nat) (f : SoField)
    (hf : getF w i = some f) (hev : f.evaluating = true) (hd : f.dirty = true)
    (hc : isConnectedF w i = true) (hx : f.destructing = false) :
    evaluateF w i = none := by
  simp [evaluateF, hf, hev, hd, hc, hx]

/-- The field of the C6 witness world: dirty, connected (to itself, the
smallest connected configuration), with the evaluating guard (illegally)
already set. -/
def c6f : SoField :=
  { SoField.init 0 with dirty := true, evaluating := true, rep := FieldRep.ext ⟨some 0, 0, [0], [], [], [], []⟩ }

/-- Concrete world for the C6 witness. -/
def c6w : World := ⟨[c6f], [], [⟨false⟩], [], 0⟩

theorem C6_reentrant_evaluate_asserts_witness :
    getF c6w 0 = some c6f ∧
    isConnectedF c6w 0 = true ∧
    evaluateF c6w 0 = none := by
  refine ⟨by decide, by decide, ?_⟩
  exact C6_reentrant_evaluate_asserts c6w 0 c6f (by decide) (by decide) (by decide) (by decide) (by decide)

theorem getF_isSome_iff (w : World) (g : Nat) :
    (getF w g).isSome ↔ g < w.fields.length := by
  unfold getF
  constructor
  · intro h
    by_contra hge
    rw [List.getElem?_eq_none (Nat.le_of_not_lt hge)] at h
    simp at h
  · intro h
    rw [List.getElem?_eq_getElem h]
    rfl

theorem fieldsLength_setF (w : World) (i : Nat) (f : SoField) :
    (setF w i f).fields.length = w.fields.length := by
  simp [setF]

theorem fieldsLength_setValue (w : World) (i v : Nat) :
    (setValueF w i v).fields.length = w.fields.length := by
  unfold setValueF
  cases getF w i with
  | none => rfl
  | some f => exact fieldsLength_setF w i _

theorem fieldsLength_setEvaluating (w : World) (i : Nat) (b : Bool) :
    (setEvaluatingF w i b).fields.length = w.fields.length := by
  unfold setEvaluatingF
  cases getF w i with
  | none => rfl
  | some f => exact fieldsLength_setF w i _

theorem fieldsLength_setDirty (w : World) (i : Nat) (b : Bool) :
    (setDirtyF w i b).fields.length = w.fields.length := by
  unfold setDirtyF
  cases getF w i with
  | none => rfl
  | some f => exact fieldsLength_setF w i _

theorem fieldsLength_foldValue (l : List Nat) (v : Nat) :
    ∀ w : World, (List.foldl (fun w g => setValueF w g v) w l).fields.length = w.fields.length := by
  induction l with
  | nil => intro w; rfl
  | cons a rest ih =>
    intro w
    simp only [List.foldl_cons]
    rw [ih (setValueF w a v), fieldsLength_setValue]

theorem fieldsLength_engineEval (w : World) (pt : SoEngineOutput) :
    (engineEvaluateWrapperF w pt).fields.length = w.fields.length := by
  unfold engineEvaluateWrapperF
  exact fieldsLength_foldValue pt.connections pt.value w

theorem fieldsLength_evalConn (w : World) (i : Nat) (w2 : World)
    (h : evaluateConnectionF w i = some w2) : w2.fields.length = w.fields.length := by
  unfold evaluateConnectionF at h
  split at h
  · cases h
  · split at h
    · split at h
      · cases h
      · split at h
        · cases h
        · split at h
          · cases h
          · split at h
            · split at h
              · cases h
              · cases h
                exact fieldsLength_setF w i _
            · cases h
              rfl
    · split at h
      · split at h
        · cases h
        · split at h
          · cases h
          · split at h
            · cases h
            · split at h
              · cases h
              · cases h
                exact fieldsLength_engineEval w _
      · cases h

/-- C5: `evaluate` is idempotent while the field is not re-dirtied — a
completed call yields a world on which a second call is a no-op (it observes
`dirty == FALSE`); and `evaluate` is a no-op outright when the field is
destructing, not dirty, or not connected.  When it does run (dirty,
connected, not destructing), the completed call has cleared the dirty
flag. -/
theorem C5_evaluate_idempotent (w : World) (i : Nat) (f : SoField)
    (hf : getF w i = some f) :
    (∀ w', evaluateF w i = some w' → evaluateF w' i = some w') ∧
    (f.destructing = true → evaluateF w i = some w) ∧
    (f.dirty = false → evaluateF w i = some w) ∧
    (isConnectedF w i = false → evaluateF w i = some w) ∧
    (∀ w', evaluateF w i = some w' → f.destructing = false → isConnectedF w i = true →
      (getF w' i).map SoField.dirty = some false) := by
  have hnoop1 : f.destructing = true → evaluateF w i = some w := by
    intro h
    simp [evaluateF, hf, h]
  have hnoop2 : f.dirty = false → evaluateF w i = some w := by
    intro h
    by_cases hdes : f.destructing = true
    · exact hnoop1 hdes
    · simp [evaluateF, hf, h, hdes]
  have hnoop3 : isConnectedF w i = false → evaluateF w i = some w := by
    intro h
    by_cases hdes : f.destructing = true
    · exact hnoop1 hdes
    · by_cases hd : f.dirty = false
      · exact hnoop2 hd
      · simp [evaluateF, hf, h, hdes, hd]
  refine ⟨?_, hnoop1, hnoop2, hnoop3, ?_⟩
  · intro w' hrun
    by_cases hdes : f.destructing = true
    · rw [hnoop1 hdes] at hrun
      cases hrun
      exact hnoop1 hdes
    · by_cases hd : f.dirty = false
      · rw [hnoop2 hd] at hrun
        cases hrun
        exact hnoop2 hd
      · by_cases hc : isConnectedF w i = false
        · rw [hnoop3 hc] at hrun
          cases hrun
          exact hnoop3 hc
        · -- the real run: afterwards the field is present and clean
          unfold evaluateF at hrun
          simp only [hf, hdes, hd, hc, Bool.false_eq_true, if_false, ite_false] at hrun
          by_cases hev : f.evaluating = true
          · simp [hev] at hrun
          · simp only [hev, Bool.false_eq_true, if_false, ite_false] at hrun
            cases hE : evaluateConnectionF (setEvaluatingF w i true) i with
            | none => rw [hE] at hrun; cases hrun
            | some w2 =>
              rw [hE] at hrun
              cases hrun
              have hlen : w2.fields.length = w.fields.length := by
                rw [fieldsLength_evalConn _ _ _ hE, fieldsLength_setEvaluating]
              have hi : i < w.fields.length := (getF_isSome_iff w i).1 (by rw [hf]; rfl)
              have h2 : ∃ f2, getF w2 i = some f2 := by
                have : (getF w2 i).isSome := (getF_isSome_iff w2 i).2 (by rw [hlen]; exact hi)
                exact Option.isSome_iff_exists.1 this
              obtain ⟨f2, hf2⟩ := h2
              have hf3 : getF (setDirtyF (setEvaluatingF w2 i false) i false) i =
                  some { { f2 with evaluating := false } with dirty := false } :=
                getF_setDirty_self false (getF_setEvaluating_self false hf2)
              simp [evaluateF, hf3]
  · intro w' hrun hdes hc
    by_cases hd : f.dirty = false
    · rw [hnoop2 hd] at hrun
      cases hrun
      rw [hf]
      simpa using hd
    · unfold evaluateF at hrun
      simp only [hf, hdes, hd, hc, Bool.false_eq_true, if_false, ite_false] at hrun
      by_cases hev : f.evaluating = true
      · simp [hev] at hrun
      · simp only [hev, Bool.false_eq_true, if_false, ite_false] at hrun
        cases hE : evaluateConnectionF (setEvaluatingF w i true) i with
        | none => rw [hE] at hrun; cases hrun
        | some w2 =>
          rw [hE] at hrun
          cases hrun
          have hlen : w2.fields.length = w.fields.length := by
            rw [fieldsLength_evalConn _ _ _ hE, fieldsLength_setEvaluating]
          have hi : i < w.fields.length := (getF_isSome_iff w i).1 (by rw [hf]; rfl)
          have h2 : ∃ f2, getF w2 i = some f2 := by
            have : (getF w2 i).isSome := (getF_isSome_iff w2 i).2 (by rw [hlen]; exact hi)
            exact Option.isSome_iff_exists.1 this
          obtain ⟨f2, hf2⟩ := h2
          rw [getF_setDirty_self false (getF_setEvaluating_self false hf2)]
          rfl

/-- The slave of the C5 witness: dirty, connected from field 1. -/
def c5x : SoField :=
  { SoField.init 3 with dirty := true, rep := FieldRep.ext ⟨some 0, 3, [1], [], [], [], []⟩ }

/-- The master of the C5 witness: holds value 5. -/
def c5y : SoField :=
  { SoField.init 3 with value := 5, rep := FieldRep.ext ⟨some 0, 3, [], [], [0], [(AudType.field, 0)], []⟩ }

/-- Concrete world for the C5 witness. -/
def c5w : World := ⟨[c5x, c5y], [], [⟨false⟩], [], 0⟩

theorem C5_evaluate_idempotent_witness :
    getF c5w 0 = some c5x ∧
    (evaluateF c5w 0).bind (fun w' => evaluateF w' 0) = evaluateF c5w 0 ∧
    ((evaluateF c5w 0).bind (fun w' => getF w' 0)).map SoField.value = some 5 ∧
    ((evaluateF c5w 0).bind (fun w' => getF w' 0)).map SoField.dirty = some false := by
  have hf : getF c5w 0 = some c5x := by decide
  refine ⟨hf, ?_, by decide, by decide⟩
  cases heq : evaluateF c5w 0 with
  | none => exact absurd heq (by decide)
  | some w' =>
    show evaluateF w' 0 = some w'
    exact (C5_evaluate_idempotent c5w 0 c5x hf).1 w' heq

/-- C8: `read` clears the default and dirty flags before any attempt to
parse the value — in the ASCII and the binary branch alike — so every input
whose value parse fails (that is not an `IS`-reference and, in ASCII, does
not start with the legal lone `~`) makes `read` return `FALSE` with the
field otherwise untouched (in particular the prior value intact) but with
both flags already reset — the flag mutation is not rolled back on
failure. -/
theorem C8_read_resets_flags_before_failed_parse (fuel : Nat) (w : World) (i : Nat)
    (ins : InStream)
    (h1 : ins.isref = false) (h2 : ins.refok = true)
    (h4 : ins.binary = false → ins.chars.head? ≠ some '~')
    (h6 : ins.valueParsed = none) :
    readF fuel w i ins = some (setDirtyF (setDefaultF w i false) i false, false) := by
  unfold readF
  by_cases hb : ins.binary = false
  · cases hc : ins.chars with
    | nil => simp [h1, h2, hb, hc]
    | cons c rest =>
      have hcn : ¬ c = '~' := by
        have h := h4 hb
        rw [hc] at h
        simpa using h
      simp [h1, h2, hb, hc, hcn, h6]
  · have hb' : ins.binary = true := by
      cases hx : ins.binary
      · exact absurd hx hb
      · rfl
    simp [h1, h2, hb', h6]

/-- Concrete input for the C8 witness: plain ASCII, a value token that the
subclass parser rejects. -/
def c8in : InStream := ⟨false, false, true, ['x'], none, [], none, none⟩

/-- Second concrete input for the C8 witness: binary mode, value parse
fails. -/
def c8bin : InStream := ⟨true, false, true, [], none, [], none, none⟩

theorem C8_read_resets_flags_before_failed_parse_witness :
    c8in.valueParsed = none ∧ c8in.chars = 'x' :: [] ∧ c8in.binary = false ∧
    readF 3 c10w 0 c8in = some (setDirtyF (setDefaultF c10w 0 false) 0 false, false) ∧
    ((readF 3 c10w 0 c8in).map fun p => (getF p.1 0).map SoField.value) =
      some ((getF c10w 0).map SoField.value) ∧
    ((readF 3 c10w 0 c8in).map fun p => (getF p.1 0).map SoField.isdefault) =
      some (some false) ∧
    ((readF 3 c10w 0 c8in).map fun p => (getF p.1 0).map SoField.dirty) =
      some (some false) ∧
    c8bin.valueParsed = none ∧ c8bin.binary = true ∧
    readF 3 c10w 0 c8bin = some (setDirtyF (setDefaultF c10w 0 false) 0 false, false) ∧
    ((readF 3 c10w 0 c8bin).map fun p => (getF p.1 0).map SoField.value) =
      some ((getF c10w 0).map SoField.value) ∧
    ((readF 3 c10w 0 c8bin).map fun p => (getF p.1 0).map SoField.isdefault) =
      some (some false) ∧
    ((readF 3 c10w 0 c8bin).map fun p => (getF p.1 0).map SoField.dirty) =
      some (some false) := by
  refine ⟨by decide, by decide, by decide, ?_, by decide, by decide, by decide,
    by decide, by decide, ?_, by decide, by decide, by decide⟩
  · exact C8_read_resets_flags_before_failed_parse 3 c10w 0 c8in
      (by decide) (by decide) (by decide) (by decide)
  · exact C8_read_resets_flags_before_failed_parse 3 c10w 0 c8bin
      (by decide) (by decide) (by decide) (by decide)

theorem extend_of_none {w : World} {j : Nat} (h : getF w j = none) :
    extendStorageF w j = w := by
  unfold extendStorageF
  rw [h]

theorem extend_of_ext {w : World} {j : Nat} {f : SoField} {s : SoConnectStorage}
    (h : getF w j = some f) (hr : f.rep = FieldRep.ext s) : extendStorageF w j = w := by
  unfold extendStorageF
  rw [h]
  show (match f.rep with
    | FieldRep.ext _ => w
    | FieldRep.plain c => setF w j { f with rep := FieldRep.ext ⟨c, f.fieldtype, [], [], [], [], []⟩ }) = w
  rw [hr]

theorem extend_of_plain {w : World} {j : Nat} {f : SoField} {c : Option Nat}
    (h : getF w j = some f) (hr : f.rep = FieldRep.plain c) :
    extendStorageF w j = setF w j { f with rep := FieldRep.ext ⟨c, f.fieldtype, [], [], [], [], []⟩ } := by
  unfold extendStorageF
  rw [h]
  show (match f.rep with
    | FieldRep.ext _ => w
    | FieldRep.plain c => setF w j { f with rep := FieldRep.ext ⟨c, f.fieldtype, [], [], [], [], []⟩ }) = _
  rw [hr]

theorem containers_extend (w : World) (j : Nat) :
    (extendStorageF w j).containers = w.containers := by
  cases h : getF w j with
  | none => rw [extend_of_none h]
  | some f =>
    cases hr : f.rep with
    | plain c => rw [extend_of_plain h hr]; rfl
    | ext s => rw [extend_of_ext h hr]

theorem registry_extend (w : World) (j : Nat) :
    (extendStorageF w j).registry = w.registry := by
  cases h : getF w j with
  | none => rw [extend_of_none h]
  | some f =>
    cases hr : f.rep with
    | plain c => rw [extend_of_plain h hr]; rfl
    | ext s => rw [extend_of_ext h hr]

theorem getC_extend (w : World) (j c : Nat) : getC (extendStorageF w j) c = getC w c := by
  unfold getC
  rw [containers_extend]

theorem getF_extend_ne {j g : Nat} (w : World) (h : j ≠ g) :
    getF (extendStorageF w j) g = getF w g := by
  cases hj : getF w j with
  | none => rw [extend_of_none hj]
  | some f =>
    cases hr : f.rep with
    | plain c => rw [extend_of_plain hj hr]; exact getF_setF_ne w _ h
    | ext s => rw [extend_of_ext hj hr]

theorem getF_extend_shape {w : World} {j g : Nat} {fg : SoField} (hg : getF w g = some fg) :
    ∃ f', getF (extendStorageF w j) g = some f' ∧
      f'.fieldtype = fg.fieldtype ∧ f'.value = fg.value ∧
      f'.enableconnects = fg.enableconnects ∧ f'.dirty = fg.dirty ∧
      f'.isdefault = fg.isdefault ∧
      (match f'.rep with
       | FieldRep.plain c => c
       | FieldRep.ext s => s.container) =
      (match fg.rep with
       | FieldRep.plain c => c
       | FieldRep.ext s => s.container) := by
  by_cases hij : j = g
  · subst hij
    cases hr : fg.rep with
    | plain c =>
      rw [extend_of_plain hg hr]
      refine ⟨_, getF_setF_self _ hg, ?_⟩
      simp [hr]
    | ext s =>
      rw [extend_of_ext hg hr]
      exact ⟨fg, hg, rfl, rfl, rfl, rfl, rfl, by rw [hr]⟩
  · rw [getF_extend_ne w hij]
    exact ⟨fg, hg, rfl, rfl, rfl, rfl, rfl, rfl⟩

theorem getContainerF_extend (w : World) (j g : Nat) :
    getContainerF (extendStorageF w j) g = getContainerF w g := by
  unfold getContainerF
  cases hg : getF w g with
  | none =>
    by_cases hij : j = g
    · subst hij
      rw [extend_of_none hg, hg]
    · rw [getF_extend_ne w hij, hg]
  | some fg =>
    obtain ⟨f', hf', _, _, _, _, _, hcont⟩ := getF_extend_shape hg
    rw [hf']
    exact hcont

theorem masterfieldsOf_extend (w : World) (j g : Nat) :
    masterfieldsOf (extendStorageF w j) g = masterfieldsOf w g := by
  unfold masterfieldsOf
  by_cases hij : j = g
  · subst hij
    cases hg : getF w j with
    | none =>
      rw [extend_of_none hg]
      simp [hg]
    | some f =>
      cases hr : f.rep with
      | plain c =>
        rw [extend_of_plain hg hr, getF_setF_self _ hg]
        simp [hg, hr]
      | ext s =>
        rw [extend_of_ext hg hr]
        simp [hg, hr]
  · rw [getF_extend_ne w hij]

theorem masterengineoutsOf_extend (w : World) (j g : Nat) :
    masterengineoutsOf (extendStorageF w j) g = masterengineoutsOf w g := by
  unfold masterengineoutsOf
  by_cases hij : j = g
  · subst hij
    cases hg : getF w j with
    | none =>
      rw [extend_of_none hg]
      simp [hg]
    | some f =>
      cases hr : f.rep with
      | plain c =>
        rw [extend_of_plain hg hr, getF_setF_self _ hg]
        simp [hg, hr]
      | ext s =>
        rw [extend_of_ext hg hr]
        simp [hg, hr]
  · rw [getF_extend_ne w hij]

theorem slavesOf_extend (w : World) (j g : Nat) :
    slavesOf (extendStorageF w j) g = slavesOf w g := by
  unfold slavesOf
  by_cases hij : j = g
  · subst hij
    cases hg : getF w j with
    | none =>
      rw [extend_of_none hg]
      simp [hg]
    | some f =>
      cases hr : f.rep with
      | plain c =>
        rw [extend_of_plain hg hr, getF_setF_self _ hg]
        simp [hg, hr]
      | ext s =>
        rw [extend_of_ext hg hr]
        simp [hg, hr]
  · rw [getF_extend_ne w hij]

theorem isConnectedF_extend (w : World) (j g : Nat) :
    isConnectedF (extendStorageF w j) g = isConnectedF w g := by
  unfold isConnectedF isConnectedFromFieldF isConnectedFromEngineF
  by_cases hij : j = g
  · subst hij
    cases hg : getF w j with
    | none =>
      rw [extend_of_none hg]
      simp [hg]
    | some f =>
      cases hr : f.rep with
      | plain c =>
        rw [extend_of_plain hg hr, getF_setF_self _ hg]
        simp [hg, hr]
      | ext s =>
        rw [extend_of_ext hg hr]
        simp [hg, hr]
  · rw [getF_extend_ne w hij]

/-- The would-be slave of the C1 counterexample: type 0, owned by container
0, no extended storage yet. -/
def c1slave : SoField := { SoField.init 0 with rep := FieldRep.plain (some 0) }

/-- The would-be master of the C1 counterexample: type 1, no storage. -/
def c1master : SoField := SoField.init 1

/-- Concrete world for the C1 counterexample: value types differ, converter
registry empty. -/
def c1w : World := ⟨[c1slave, c1master], [], [⟨false⟩], [], 0⟩

/-- C1 is false as stated: with no converter registered for the type pair,
`connectFrom` does return `FALSE`, but the fields are not "exactly as
before the call" — both endpoints have had extended connection storage
allocated (the `FLAG_EXTSTORAGE` state change happens before the converter
lookup and is not rolled back). -/
theorem C1_counterexample :
    (connectFromF 3 c1w 0 1 false false).map (fun p => p.2) = some false ∧
    (connectFromF 3 c1w 0 1 false false).map (fun p => getF p.1 0) ≠ some (getF c1w 0) ∧
    (connectFromF 3 c1w 0 1 false false).map (fun p => getF p.1 1) ≠ some (getF c1w 1) := by
  refine ⟨by decide, by decide, by decide⟩

/-- C1 (amended): for every pair of fields with different value types and no
registered converter, `connectFrom` returns `FALSE` and the only state
change is the allocation of (empty) extended connection storage on the two
endpoints — so no partial link is left: the slave's `isConnected()` status
is unchanged (still `FALSE` when it was unconnected), its master list is
unchanged, and the would-be master's slave list is unchanged. -/
theorem C1_connectFrom_unsupported_conversion (fuel : Nat) (w : World) (i m : Nat)
    (f fm : SoField) (nn ap : Bool) (c : Nat) (cc : SoFieldContainer)
    (hf : getF w i = some f) (hm : getF w m = some fm)
    (hty : fm.fieldtype ≠ f.fieldtype)
    (hreg : registryHas w.registry fm.fieldtype f.fieldtype = false)
    (hc : getContainerF w i = some c) (hcc : getC w c = some cc) :
    connectFromF fuel w i m nn ap = some (extendStorageF (extendStorageF w i) m, false) ∧
    isConnectedF (extendStorageF (extendStorageF w i) m) i = isConnectedF w i ∧
    masterfieldsOf (extendStorageF (extendStorageF w i) m) i = masterfieldsOf w i ∧
    slavesOf (extendStorageF (extendStorageF w i) m) m = slavesOf w m := by
  have hconn : isConnectedF (extendStorageF (extendStorageF w i) m) i = isConnectedF w i := by
    rw [isConnectedF_extend, isConnectedF_extend]
  have hmf : masterfieldsOf (extendStorageF (extendStorageF w i) m) i = masterfieldsOf w i := by
    rw [masterfieldsOf_extend, masterfieldsOf_extend]
  have hsl : slavesOf (extendStorageF (extendStorageF w i) m) m = slavesOf w m := by
    rw [slavesOf_extend, slavesOf_extend]
  refine ⟨?_, hconn, hmf, hsl⟩
  obtain ⟨f1, hf1, hft1, _⟩ := getF_extend_shape (j := i) hf
  obtain ⟨f2, hf2, hft2, _⟩ := getF_extend_shape (j := m) hf1
  obtain ⟨g1, hg1, hgt1, _⟩ := getF_extend_shape (j := i) hm
  obtain ⟨g2, hg2, hgt2, _⟩ := getF_extend_shape (j := m) hg1
  have hftf : f2.fieldtype = f.fieldtype := hft2.trans hft1
  have hgtm : g2.fieldtype = fm.fieldtype := hgt2.trans hgt1
  have hc2 : getContainerF (extendStorageF (extendStorageF w i) m) i = some c := by
    rw [getContainerF_extend, getContainerF_extend]
    exact hc
  have hcc2 : getC (extendStorageF (extendStorageF w i) m) c = some cc := by
    unfold getC
    rw [containers_extend, containers_extend]
    exact hcc
  have hreg2 : registryHas (extendStorageF (extendStorageF w i) m).registry
      g2.fieldtype f2.fieldtype = false := by
    rw [registry_extend, registry_extend, hftf, hgtm]
    exact hreg
  have htyne : ¬(g2.fieldtype = f2.fieldtype) := by
    rw [hftf, hgtm]
    exact hty
  simp only [connectFromF, hf2, hg2, hc2, hcc2]
  rw [if_neg htyne, hreg2]
  simp

theorem C1_connectFrom_unsupported_conversion_witness :
    getF c1w 0 = some c1slave ∧ getF c1w 1 = some c1master ∧
    c1master.fieldtype ≠ c1slave.fieldtype ∧
    registryHas c1w.registry c1master.fieldtype c1slave.fieldtype = false ∧
    connectFromF 3 c1w 0 1 false false =
      some (extendStorageF (extendStorageF c1w 0) 1, false) ∧
    isConnectedF (extendStorageF (extendStorageF c1w 0) 1) 0 = isConnectedF c1w 0 ∧
    slavesOf (extendStorageF (extendStorageF c1w 0) 1) 1 = slavesOf c1w 1 := by
  have hmain := C1_connectFrom_unsupported_conversion 3 c1w 0 1 c1slave c1master
    false false 0 ⟨false⟩ (by decide) (by decide) (by decide) (by decide) (by decide) (by decide)
  exact ⟨by decide, by decide, by decide, by decide, hmain.1, hmain.2.1, hmain.2.2.2⟩

theorem getF_extend_self_ext {w : World} {j : Nat} {f : SoField} (hf : getF w j = some f) :
    ∃ f' s, getF (extendStorageF w j) j = some f' ∧ f'.rep = FieldRep.ext s ∧
      f'.fieldtype = f.fieldtype ∧ f'.enableconnects = f.enableconnects ∧
      s.masterfields = masterfieldsOf w j ∧ s.masterengineouts = masterengineoutsOf w j ∧
      s.slaves = slavesOf w j ∧ s.auditors = auditorsOf w j := by
  cases hr : f.rep with
  | plain c =>
    rw [extend_of_plain hf hr]
    refine ⟨_, _, getF_setF_self _ hf, rfl, rfl, rfl, ?_, ?_, ?_, ?_⟩ <;>
      simp [masterfieldsOf, masterengineoutsOf, slavesOf, auditorsOf, hf, hr]
  | ext s =>
    rw [extend_of_ext hf hr]
    refine ⟨f, s, hf, hr, rfl, rfl, ?_, ?_, ?_, ?_⟩ <;>
      simp [masterfieldsOf, masterengineoutsOf, slavesOf, auditorsOf, hf, hr]

theorem addAuditorF_ext {w : World} {m : Nat} {gm : SoField} {sm : SoConnectStorage}
    (hm : getF w m = some gm) (hr : gm.rep = FieldRep.ext sm) (a : AudType × Nat) :
    addAuditorF w m a =
      some (setF w m { gm with rep := FieldRep.ext { sm with auditors := sm.auditors ++ [a] } }) := by
  unfold addAuditorF
  rw [extend_of_ext hm hr]
  simp only [hm, hr]

theorem appendMasterFieldF_ext {w : World} {i : Nat} {fi : SoField} {si : SoConnectStorage}
    (hf : getF w i = some fi) (hr : fi.rep = FieldRep.ext si) (m : Nat) :
    appendMasterFieldF w i m =
      some (setF w i { fi with rep := FieldRep.ext { si with masterfields := si.masterfields ++ [m] } }) := by
  unfold appendMasterFieldF
  simp only [hf, hr]

theorem appendSlaveF_ext {w : World} {m : Nat} {gm : SoField} {sm : SoConnectStorage}
    (hm : getF w m = some gm) (hr : gm.rep = FieldRep.ext sm) (i : Nat) :
    appendSlaveF w m i =
      some (setF w m { gm with rep := FieldRep.ext { sm with slaves := sm.slaves ++ [i] } }) := by
  unfold appendSlaveF
  simp only [hm, hr]

/-- Pointwise preservation of field existence and dynamic type. -/
def FtPres (w w' : World) : Prop :=
  ∀ g fg, getF w g = some fg → ∃ fg', getF w' g = some fg' ∧ fg'.fieldtype = fg.fieldtype

theorem ftPres_refl (w : World) : FtPres w w := fun g fg h => ⟨fg, h, rfl⟩

theorem ftPres_trans {a b c : World} (h1 : FtPres a b) (h2 : FtPres b c) : FtPres a c := by
  intro g fg h
  obtain ⟨f1, hf1, ht1⟩ := h1 g fg h
  obtain ⟨f2, hf2, ht2⟩ := h2 g f1 hf1
  exact ⟨f2, hf2, ht2.trans ht1⟩

theorem ftPres_extend (w : World) (j : Nat) : FtPres w (extendStorageF w j) := by
  intro g fg h
  obtain ⟨f', hf', ht, _⟩ := getF_extend_shape (j := j) h
  exact ⟨f', hf', ht⟩

theorem ftPres_setF {w : World} {j : Nat} {old x : SoField}
    (hold : getF w j = some old) (hft : x.fieldtype = old.fieldtype) :
    FtPres w (setF w j x) := by
  intro g fg h
  by_cases hjg : j = g
  · subst hjg
    rw [hold] at h
    cases h
    exact ⟨x, getF_setF_self _ hold, hft⟩
  · exact ⟨fg, by rw [getF_setF_ne w _ hjg]; exact h, rfl⟩

theorem ftPres_setDirty (w : World) (j : Nat) (b : Bool) : FtPres w (setDirtyF w j b) := by
  intro g fg h
  by_cases hjg : j = g
  · subst hjg
    exact ⟨_, getF_setDirty_self b h, rfl⟩
  · exact ⟨fg, by rw [getF_setDirty_ne w b hjg]; exact h, rfl⟩

theorem ftPres_setDefault (w : World) (j : Nat) (b : Bool) : FtPres w (setDefaultF w j b) := by
  intro g fg h
  by_cases hjg : j = g
  · subst hjg
    exact ⟨_, getF_setDefault_self b h, rfl⟩
  · exact ⟨fg, by rw [getF_setDefault_ne w b hjg]; exact h, rfl⟩

theorem ftPres_notify {fuel : Nat} {w : World} {i nl : Nat} {w' : World}
    (h : notifyF fuel w i nl = some w') : FtPres w w' := by
  intro g fg hg
  obtain ⟨f', hf', hp⟩ := (notifyPres fuel w i nl w' h).2.2.2.2 g fg hg
  exact ⟨f', hf', hp.2.1⟩

theorem masterfieldsOf_pres {w w' : World} {g : Nat} {fg : SoField}
    (hg : getF w g = some fg)
    (h : ∃ fg', getF w' g = some fg' ∧ fg'.rep = fg.rep) :
    masterfieldsOf w' g = masterfieldsOf w g := by
  obtain ⟨fg', hf', hrep⟩ := h
  unfold masterfieldsOf
  rw [hg, hf']
  simp [hrep]

theorem getConnections_eq_masterfields (w : World) (g : Nat) :
    getConnectionsF w g = masterfieldsOf w g := rfl

theorem getConnectedField_last (w : World) (g : Nat) :
    getConnectedFieldF w g = (masterfieldsOf w g).getLast? := by
  unfold getConnectedFieldF masterfieldsOf
  cases hf : getF w g with
  | none => simp
  | some f =>
    cases hr : f.rep with
    | plain c => simp [hr]
    | ext s =>
      cases hl : s.masterfields with
      | nil => simp [hr, hl]
      | cons a rest => simp [hr, hl]

theorem getConnectedEngine_last (w : World) (g : Nat) :
    getConnectedEngineF w g = (masterengineoutsOf w g).getLast? := by
  unfold getConnectedEngineF masterengineoutsOf
  cases hf : getF w g with
  | none => simp
  | some f =>
    cases hr : f.rep with
    | plain c => simp [hr]
    | ext s =>
      cases hl : s.masterengineouts with
      | nil => simp [hr, hl]
      | cons a rest => simp [hr, hl]

theorem ftPres_startNotify {fuel : Nat} {w : World} {i : Nat} {w' : World}
    (h : startNotifyF fuel w i = some w') : FtPres w w' := by
  unfold startNotifyF at h
  intro g fg hg
  have hg2 : getF { w with passes := w.passes + 1 } g = some fg := hg
  obtain ⟨f', hf', hp⟩ := (notifyPres fuel _ i 0 w' h).2.2.2.2 g fg hg2
  exact ⟨f', hf', hp.2.1⟩

theorem masterfieldsOf_startNotify {fuel : Nat} {w : World} {i : Nat} {w' : World}
    (h : startNotifyF fuel w i = some w') {g : Nat} {fg : SoField}
    (hg : getF w g = some fg) : masterfieldsOf w' g = masterfieldsOf w g := by
  unfold startNotifyF at h
  have hg2 : getF { w with passes := w.passes + 1 } g = some fg := hg
  obtain ⟨f', hf', hp⟩ := (notifyPres fuel _ i 0 w' h).2.2.2.2 g fg hg2
  exact masterfieldsOf_pres hg ⟨f', hf', hp.1⟩

theorem connectFrom_append_step (fuel : Nat) (w : World) (i m : Nat) (f fm : SoField)
    (nn : Bool) (c : Nat) (cc : SoFieldContainer) (w' : World) (r : Bool)
    (hf : getF w i = some f) (hm : getF w m = some fm)
    (hne : i ≠ m) (hty : fm.fieldtype = f.fieldtype)
    (hc : getContainerF w i = some c) (hcc : getC w c = some cc)
    (hrun : connectFromF fuel w i m nn true = some (w', r)) :
    r = true ∧
    masterfieldsOf w' i = masterfieldsOf w i ++ [m] ∧
    FtPres w w' := by
  obtain ⟨fi, si, hfi1, hri, hfti, hei, hsimf, hsime, hsisl, hsiaud⟩ := getF_extend_self_ext hf
  have hm1 : getF (extendStorageF w i) m = some fm := by
    rw [getF_extend_ne w hne]
    exact hm
  obtain ⟨gm, sm, hgm2, hrm, hftm, hem, hsmmf, hsmme, hsmsl, hsmaud⟩ := getF_extend_self_ext hm1
  have hfi2 : getF (extendStorageF (extendStorageF w i) m) i = some fi := by
    rw [getF_extend_ne _ (Ne.symm hne)]
    exact hfi1
  have hcon2 : getContainerF (extendStorageF (extendStorageF w i) m) i = some c := by
    rw [getContainerF_extend, getContainerF_extend]
    exact hc
  have hgc2 : getC (extendStorageF (extendStorageF w i) m) c = some cc := by
    unfold getC
    rw [containers_extend, containers_extend]
    exact hcc
  have htyeq : gm.fieldtype = fi.fieldtype := by
    rw [hftm, hfti]
    exact hty
  have haud := addAuditorF_ext hgm2 hrm (AudType.field, i)
  have hfi3 : getF (setF (extendStorageF (extendStorageF w i) m) m
      { gm with rep := FieldRep.ext { sm with auditors := sm.auditors ++ [(AudType.field, i)] } }) i =
      some fi := by
    rw [getF_setF_ne _ _ (Ne.symm hne)]
    exact hfi2
  have happm := appendMasterFieldF_ext hfi3 hri m
  simp only [connectFromF, hfi2, hgm2, hcon2, hgc2, if_pos htyeq, if_true, haud, happm] at hrun
  set sma : SoConnectStorage := { sm with auditors := sm.auditors ++ [(AudType.field, i)] } with hsma
  set gma : SoField := { gm with rep := FieldRep.ext sma } with hgma
  set fia : SoField :=
    { fi with rep := FieldRep.ext { si with masterfields := si.masterfields ++ [m] } } with hfia
  set W4 := setF (setF (extendStorageF (extendStorageF w i) m) m gma) i fia with hW4
  have hfi4 : getF W4 i = some fia := getF_setF_self _ hfi3
  have hgm3 : getF (setF (extendStorageF (extendStorageF w i) m) m gma) m = some gma :=
    getF_setF_self _ hgm2
  have hgm4 : getF W4 m = some gma := by
    rw [hW4, getF_setF_ne _ _ hne]
    exact hgm3
  have hmf4 : masterfieldsOf W4 i = masterfieldsOf w i ++ [m] := by
    have h1 : masterfieldsOf W4 i = si.masterfields ++ [m] := by
      unfold masterfieldsOf
      rw [hfi4]
    rw [h1, hsimf]
  have hftp4 : FtPres w W4 := by
    rw [hW4]
    have t1 : FtPres w (extendStorageF (extendStorageF w i) m) :=
      ftPres_trans (ftPres_extend w i) (ftPres_extend _ m)
    have t2 : FtPres (extendStorageF (extendStorageF w i) m)
        (setF (extendStorageF (extendStorageF w i) m) m gma) := ftPres_setF hgm2 rfl
    have t3 : FtPres (setF (extendStorageF (extendStorageF w i) m) m gma)
        (setF (setF (extendStorageF (extendStorageF w i) m) m gma) i fia) := ftPres_setF hfi3 rfl
    exact ftPres_trans (ftPres_trans t1 t2) t3
  have hfinal : ∀ (X : World) (fx : SoField), getF X i = some fx →
      masterfieldsOf X i = masterfieldsOf w i ++ [m] → FtPres w X →
      ((if (decide (nn = false) && fx.enableconnects) = true then
          match startNotifyF fuel (setDefaultF (setDirtyF X i true) i false) i with
          | none => none
          | some w => some (w, true)
        else some (X, true)) = some (w', r)) →
      r = true ∧ masterfieldsOf w' i = masterfieldsOf w i ++ [m] ∧ FtPres w w' := by
    intro X fx hfx hmfX hftX hr2
    have hfd : getF (setDirtyF X i true) i = some { fx with dirty := true } :=
      getF_setDirty_self true hfx
    have hfdd : getF (setDefaultF (setDirtyF X i true) i false) i =
        some { { fx with dirty := true } with isdefault := false } :=
      getF_setDefault_self false hfd
    have hmfd : masterfieldsOf (setDirtyF X i true) i = masterfieldsOf X i :=
      masterfieldsOf_pres hfx ⟨_, hfd, rfl⟩
    have hmfdd : masterfieldsOf (setDefaultF (setDirtyF X i true) i false) i =
        masterfieldsOf (setDirtyF X i true) i :=
      masterfieldsOf_pres hfd ⟨_, hfdd, rfl⟩
    split at hr2
    · cases hsn : startNotifyF fuel (setDefaultF (setDirtyF X i true) i false) i with
      | none => rw [hsn] at hr2; cases hr2
      | some w8 =>
        rw [hsn] at hr2
        simp only [Option.some.injEq, Prod.mk.injEq] at hr2
        obtain ⟨hw8, hr⟩ := hr2
        subst hw8
        refine ⟨hr.symm, ?_, ?_⟩
        · rw [masterfieldsOf_startNotify hsn hfdd, hmfdd, hmfd, hmfX]
        · exact ftPres_trans (ftPres_trans (ftPres_trans hftX (ftPres_setDirty X i true))
            (ftPres_setDefault _ i false)) (ftPres_startNotify hsn)
    · simp only [Option.some.injEq, Prod.mk.injEq] at hr2
      obtain ⟨hwX, hr⟩ := hr2
      subst hwX
      exact ⟨hr.symm, hmfX, hftX⟩
  by_cases hcv : cc.isConverter = true
  · rw [if_pos hcv] at hrun
    simp only [hfi4] at hrun
    exact hfinal W4 fia hfi4 hmf4 hftp4 hrun
  · rw [if_neg hcv] at hrun
    have hrma : gma.rep = FieldRep.ext sma := rfl
    have happs := appendSlaveF_ext hgm4 hrma i
    simp only [happs] at hrun
    set gmb : SoField := { gma with rep := FieldRep.ext { sma with slaves := sma.slaves ++ [i] } } with hgmb
    set W5 := setF W4 m gmb with hW5
    have hfi5 : getF W5 i = some fia := by
      rw [hW5, getF_setF_ne _ _ (Ne.symm hne)]
      exact hfi4
    have hmf5 : masterfieldsOf W5 i = masterfieldsOf w i ++ [m] := by
      rw [← hmf4]
      exact masterfieldsOf_pres hfi4 ⟨fia, hfi5, rfl⟩
    have hftp5 : FtPres w W5 := by
      rw [hW5]
      exact ftPres_trans hftp4 (ftPres_setF hgm4 rfl)
    simp only [hfi5] at hrun
    exact hfinal W5 fia hfi5 hmf5 hftp5 hrun

/-- C7: `getConnectedField` and `getConnectedEngine` return the most
recently added master (the tail of the respective master list) or report
absence when there is none; in particular, appending a connection to `M1`
and then to `M2` (append semantics both times, equal value types) on an
initially unconnected field yields `getConnections() = [M1, M2]` — length
2, insertion order — with `getConnectedField() = M2`. -/
theorem C7_append_connections_last_wins (fuel : Nat) (w : World) (i m1 m2 : Nat)
    (f fm1 fm2 : SoField) (nn1 nn2 : Bool) (c c1 : Nat) (cc cc1 : SoFieldContainer)
    (w1 w2 : World) (r1 r2 : Bool)
    (hf : getF w i = some f) (hm1 : getF w m1 = some fm1) (hm2 : getF w m2 = some fm2)
    (hne1 : i ≠ m1) (hne2 : i ≠ m2)
    (hty1 : fm1.fieldtype = f.fieldtype) (hty2 : fm2.fieldtype = f.fieldtype)
    (hc : getContainerF w i = some c) (hcc : getC w c = some cc)
    (hc1 : getContainerF w1 i = some c1) (hcc1 : getC w1 c1 = some cc1)
    (hempty : masterfieldsOf w i = [])
    (h1 : appendConnectionF fuel w i m1 nn1 = some (w1, r1))
    (h2 : appendConnectionF fuel w1 i m2 nn2 = some (w2, r2)) :
    r1 = true ∧ r2 = true ∧
    getConnectionsF w2 i = [m1, m2] ∧
    getConnectedFieldF w2 i = some m2 ∧
    (∀ (v : World) (g : Nat), getConnectedFieldF v g = (masterfieldsOf v g).getLast?) ∧
    (∀ (v : World) (g : Nat), getConnectedEngineF v g = (masterengineoutsOf v g).getLast?) := by
  obtain ⟨hr1, hmf1, hftp1⟩ := connectFrom_append_step fuel w i m1 f fm1 nn1 c cc w1 r1
    hf hm1 hne1 hty1 hc hcc h1
  obtain ⟨f2, hf2, hft2⟩ := hftp1 i f hf
  obtain ⟨g2, hg2, hgt2⟩ := hftp1 m2 fm2 hm2
  have hty2b : g2.fieldtype = f2.fieldtype := by
    rw [hgt2, hft2, hty2]
  obtain ⟨hr2, hmf2, hftp2⟩ := connectFrom_append_step fuel w1 i m2 f2 g2 nn2 c1 cc1 w2 r2
    hf2 hg2 hne2 hty2b hc1 hcc1 h2
  have hlist : masterfieldsOf w2 i = [m1, m2] := by
    rw [hmf2, hmf1, hempty]
    rfl
  refine ⟨hr1, hr2, ?_, ?_, fun v g => getConnectedField_last v g,
    fun v g => getConnectedEngine_last v g⟩
  · rw [getConnections_eq_masterfields, hlist]
  · rw [getConnectedField_last, hlist]
    rfl

/-- The slave of the C7 witness: type 0, owned by container 0, unconnected. -/
def c7x : SoField := { SoField.init 0 with rep := FieldRep.plain (some 0) }

/-- Concrete world for the C7 witness: the slave and two same-type masters. -/
def c7w : World := ⟨[c7x, SoField.init 0, SoField.init 0], [], [⟨false⟩], [], 0⟩

/-- The world after the first append of the C7 witness. -/
def c7w1 : World := ((appendConnectionF 6 c7w 0 1 false).getD (c7w, false)).1

/-- The world after the second append of the C7 witness. -/
def c7w2 : World := ((appendConnectionF 6 c7w1 0 2 false).getD (c7w, false)).1

/-- A field with two engine-output masters, for the engine half of the C7
witness: `getConnectedEngine` returns the most recently added one. -/
def c7e : SoField :=
  { SoField.init 0 with rep := FieldRep.ext ⟨some 0, 0, [], [0, 1], [], [], []⟩ }

/-- World for the engine half of the C7 witness. -/
def c7ew : World :=
  ⟨[c7e], [⟨0, true, 0, [], none⟩, ⟨0, true, 0, [], none⟩], [⟨false⟩], [], 0⟩

theorem C7_append_connections_last_wins_witness :
    appendConnectionF 6 c7w 0 1 false = some (c7w1, true) ∧
    appendConnectionF 6 c7w1 0 2 false = some (c7w2, true) ∧
    getConnectionsF c7w2 0 = [1, 2] ∧
    getConnectedFieldF c7w2 0 = some 2 ∧
    getConnectedEngineF c7ew 0 = some 1 ∧
    getConnectedEngineF c7w2 0 = none := by
  have h1 : appendConnectionF 6 c7w 0 1 false = some (c7w1, true) := by decide
  have h2 : appendConnectionF 6 c7w1 0 2 false = some (c7w2, true) := by decide
  have hmain := C7_append_connections_last_wins 6 c7w 0 1 2
    c7x (SoField.init 0) (SoField.init 0) false false 0 0 ⟨false⟩ ⟨false⟩ c7w1 c7w2 true true
    (by decide) (by decide) (by decide) (by decide) (by decide) (by decide) (by decide)
    (by decide) (by decide) (by decide) (by decide) (by decide) h1 h2
  refine ⟨h1, h2, hmain.2.2.1, hmain.2.2.2.1, ?_, ?_⟩
  · rw [hmain.2.2.2.2.2 c7ew 0]
    decide
  · rw [hmain.2.2.2.2.2 c7w2 0]
    decide

/-- Field 0 of the C2 counterexample: connected from field 1 and auditing it
(the A half of the two-cycle A <-> B). -/
def c2a : SoField :=
  { SoField.init 0 with rep := FieldRep.ext ⟨none, 0, [1], [], [1], [(AudType.field, 1)], []⟩ }

/-- Field 1 of the C2 counterexample (the B half of the cycle). -/
def c2b : SoField :=
  { SoField.init 0 with rep := FieldRep.ext ⟨none, 0, [0], [], [0], [(AudType.field, 0)], []⟩ }

/-- Concrete two-cycle world for the C2 counterexample. -/
def c2w : World := ⟨[c2a, c2b], [], [], [], 0⟩

/-- C2 is false as stated: on the cycle A <-> B, `touch()` on A terminates,
but the fields are not each marked dirty exactly once — the origin A is
never marked (its dirty-mark count stays 0 and its dirty flag stays clear),
because the pass reaches A again only through the re-entrancy guard, which
returns before the marking step; only B is marked, exactly once. -/
theorem C2_counterexample :
    (touchF 9 c2w 0).map (fun v => ((getF v 0).map SoField.marks, (getF v 1).map SoField.marks,
      (getF v 0).map SoField.dirty, (getF v 1).map SoField.dirty)) =
      some (some 0, some 1, some false, some true) := by
  decide

/-- C2 (amended): for every two-cycle world (fields 0 and 1 each connected
from and auditing the other, neither mid-notification), `touch()` on a
member terminates — for any recursion budget of at least 5, because the
re-entrant `notify` on the origin returns immediately at the
`FLAG_ISNOTIFIED` guard — and each field is marked dirty at most once per
pass: the non-origin member exactly once, the origin zero times; both
re-entrancy guards are restored afterwards. -/
theorem C2_cycle_touch_terminates (k : Nat) (A B : SoField)
    (ps : List SoEngineOutput) (cs : List SoFieldContainer) (reg : List (Nat × Nat)) (pc : Nat)
    (sA sB : SoConnectStorage)
    (hA : A.rep = FieldRep.ext sA) (hB : B.rep = FieldRep.ext sB)
    (hAmf : sA.masterfields = [1]) (hBmf : sB.masterfields = [0])
    (hAsl : sA.slaves = [1]) (hBsl : sB.slaves = [0])
    (hAaud : sA.auditors = [(AudType.field, 1)]) (hBaud : sB.auditors = [(AudType.field, 0)])
    (hAn : A.isnotified = false) (hBn : B.isnotified = false)
    (hAd : A.donotify = true) (hBd : B.donotify = true) :
    touchF (k + 5) ⟨[A, B], ps, cs, reg, pc⟩ 0 =
      some ⟨[{ A with isnotified := false },
             { B with dirty := true, marks := B.marks + 1, isnotified := false }],
            ps, cs, reg, pc + 1⟩ ∧
    ({ A with isnotified := false } : SoField).marks = A.marks ∧
    ({ A with isnotified := false } : SoField).dirty = A.dirty := by
  refine ⟨?_, rfl, rfl⟩
  simp [touchF, ptrNonNullF, startNotifyF, notifyF, notifyT, notifyEnter, notifyMark,
    setNotifiedF, markDirtyF, setF, getF, auditorsOf, hA, hB, hAaud, hBaud, hAn, hBn, hAd, hBd]

theorem C2_cycle_touch_terminates_witness :
    c2a.rep = FieldRep.ext ⟨none, 0, [1], [], [1], [(AudType.field, 1)], []⟩ ∧
    c2a.isnotified = false ∧ c2a.donotify = true ∧
    touchF 9 c2w 0 =
      some ⟨[{ c2a with isnotified := false },
             { c2b with dirty := true, marks := c2b.marks + 1, isnotified := false }],
            [], [], [], 1⟩ := by
  refine ⟨by decide, by decide, by decide, ?_⟩
  have h := C2_cycle_touch_terminates 4 c2a c2b [] [] [] 0
    ⟨none, 0, [1], [], [1], [(AudType.field, 1)], []⟩
    ⟨none, 0, [0], [], [0], [(AudType.field, 0)], []⟩
    (by decide) (by decide) (by decide) (by decide) (by decide) (by decide)
    (by decide) (by decide) (by decide) (by decide) (by decide) (by decide)
  exact h.1

theorem mapRep_setF {w : World} {j : Nat} {old x : SoField}
    (hold : getF w j = some old) (hrep : x.rep = old.rep) (g : Nat) :
    (getF (setF w j x) g).map SoField.rep = (getF w g).map SoField.rep := by
  by_cases hjg : j = g
  · subst hjg
    rw [getF_setF_self _ hold, hold]
    simp [hrep]
  · rw [getF_setF_ne w _ hjg]

theorem mapProj_setEvaluating (w : World) (j : Nat) (b : Bool) (g : Nat) :
    (getF (setEvaluatingF w j b) g).map SoField.rep = (getF w g).map SoField.rep ∧
    (getF (setEvaluatingF w j b) g).map SoField.destructing =
      (getF w g).map SoField.destructing := by
  by_cases hjg : j = g
  · subst hjg
    cases hg : getF w j with
    | none =>
      have he : setEvaluatingF w j b = w := by
        unfold setEvaluatingF
        rw [hg]
      rw [he, hg]
      exact ⟨rfl, rfl⟩
    | some f =>
      rw [getF_setEvaluating_self b hg]
      simp
  · rw [getF_setEvaluating_ne w b hjg]
    exact ⟨rfl, rfl⟩

theorem mapProj_setValue (w : World) (j v : Nat) (g : Nat) :
    (getF (setValueF w j v) g).map SoField.rep = (getF w g).map SoField.rep ∧
    (getF (setValueF w j v) g).map SoField.evaluating = (getF w g).map SoField.evaluating ∧
    (getF (setValueF w j v) g).map SoField.destructing = (getF w g).map SoField.destructing := by
  by_cases hjg : j = g
  · subst hjg
    cases hg : getF w j with
    | none =>
      have he : setValueF w j v = w := by
        unfold setValueF
        rw [hg]
      rw [he, hg]
      exact ⟨rfl, rfl, rfl⟩
    | some f =>
      rw [getF_setValue_self v hg]
      simp
  · rw [getF_setValue_ne w v hjg]
    exact ⟨rfl, rfl, rfl⟩

theorem masterfieldsOf_rep_eq {w w' : World} {g : Nat}
    (h : (getF w' g).map SoField.rep = (getF w g).map SoField.rep) :
    masterfieldsOf w' g = masterfieldsOf w g := by
  unfold masterfieldsOf
  cases hg : getF w g with
  | none =>
    rw [hg] at h
    cases hg' : getF w' g with
    | none => rfl
    | some f' => rw [hg'] at h; simp at h
  | some fg =>
    rw [hg] at h
    cases hg' : getF w' g with
    | none => rw [hg'] at h; simp at h
    | some fg' =>
      rw [hg'] at h
      simp at h
      simp [h]

theorem masterengineoutsOf_rep_eq {w w' : World} {g : Nat}
    (h : (getF w' g).map SoField.rep = (getF w g).map SoField.rep) :
    masterengineoutsOf w' g = masterengineoutsOf w g := by
  unfold masterengineoutsOf
  cases hg : getF w g with
  | none =>
    rw [hg] at h
    cases hg' : getF w' g with
    | none => rfl
    | some f' => rw [hg'] at h; simp at h
  | some fg =>
    rw [hg] at h
    cases hg' : getF w' g with
    | none => rw [hg'] at h; simp at h
    | some fg' =>
      rw [hg'] at h
      simp at h
      simp [h]

theorem slavesOf_rep_eq {w w' : World} {g : Nat}
    (h : (getF w' g).map SoField.rep = (getF w g).map SoField.rep) :
    slavesOf w' g = slavesOf w g := by
  unfold slavesOf
  cases hg : getF w g with
  | none =>
    rw [hg] at h
    cases hg' : getF w' g with
    | none => rfl
    | some f' => rw [hg'] at h; simp at h
  | some fg =>
    rw [hg] at h
    cases hg' : getF w' g with
    | none => rw [hg'] at h; simp at h
    | some fg' =>
      rw [hg'] at h
      simp at h
      simp [h]

theorem auditorsOf_rep_eq {w w' : World} {g : Nat}
    (h : (getF w' g).map SoField.rep = (getF w g).map SoField.rep) :
    auditorsOf w' g = auditorsOf w g := by
  unfold auditorsOf
  cases hg : getF w g with
  | none =>
    rw [hg] at h
    cases hg' : getF w' g with
    | none => rfl
    | some f' => rw [hg'] at h; simp at h
  | some fg =>
    rw [hg] at h
    cases hg' : getF w' g with
    | none => rw [hg'] at h; simp at h
    | some fg' =>
      rw [hg'] at h
      simp at h
      simp [h]

theorem isConnectedFromFieldF_rep_eq {w w' : World} {g : Nat}
    (h : (getF w' g).map SoField.rep = (getF w g).map SoField.rep) :
    isConnectedFromFieldF w' g = isConnectedFromFieldF w g := by
  unfold isConnectedFromFieldF
  cases hg : getF w g with
  | none =>
    rw [hg] at h
    cases hg' : getF w' g with
    | none => rfl
    | some f' => rw [hg'] at h; simp at h
  | some fg =>
    rw [hg] at h
    cases hg' : getF w' g with
    | none => rw [hg'] at h; simp at h
    | some fg' =>
      rw [hg'] at h
      simp at h
      simp [h]

theorem isConnectedFromEngineF_rep_eq {w w' : World} {g : Nat}
    (h : (getF w' g).map SoField.rep = (getF w g).map SoField.rep) :
    isConnectedFromEngineF w' g = isConnectedFromEngineF w g := by
  unfold isConnectedFromEngineF
  cases hg : getF w g with
  | none =>
    rw [hg] at h
    cases hg' : getF w' g with
    | none => rfl
    | some f' => rw [hg'] at h; simp at h
  | some fg =>
    rw [hg] at h
    cases hg' : getF w' g with
    | none => rw [hg'] at h; simp at h
    | some fg' =>
      rw [hg'] at h
      simp at h
      simp [h]

theorem isConnectedF_rep_eq {w w' : World} {g : Nat}
    (h : (getF w' g).map SoField.rep = (getF w g).map SoField.rep) :
    isConnectedF w' g = isConnectedF w g := by
  unfold isConnectedF
  rw [isConnectedFromFieldF_rep_eq h, isConnectedFromEngineF_rep_eq h]

theorem getContainerF_rep_eq {w w' : World} {g : Nat}
    (h : (getF w' g).map SoField.rep = (getF w g).map SoField.rep) :
    getContainerF w' g = getContainerF w g := by
  unfold getContainerF
  cases hg : getF w g with
  | none =>
    rw [hg] at h
    cases hg' : getF w' g with
    | none => rfl
    | some f' => rw [hg'] at h; simp at h
  | some fg =>
    rw [hg] at h
    cases hg' : getF w' g with
    | none => rw [hg'] at h; simp at h
    | some fg' =>
      rw [hg'] at h
      simp at h
      simp [h]

/-- What a completed `evaluate` (or the pulls inside it) leaves untouched:
engine outputs, containers, every field's connection structure (`rep`) and
its evaluating/destructing flags. -/
def DiscPres (w w' : World) : Prop :=
  w'.ports = w.ports ∧ w'.containers = w.containers ∧
  ∀ g, (getF w' g).map SoField.rep = (getF w g).map SoField.rep ∧
       (getF w' g).map SoField.evaluating = (getF w g).map SoField.evaluating ∧
       (getF w' g).map SoField.destructing = (getF w g).map SoField.destructing

theorem discPres_refl (w : World) : DiscPres w w := ⟨rfl, rfl, fun _ => ⟨rfl, rfl, rfl⟩⟩

theorem discPres_trans {a b c : World} (h1 : DiscPres a b) (h2 : DiscPres b c) :
    DiscPres a c := by
  refine ⟨h2.1.trans h1.1, h2.2.1.trans h1.2.1, fun g => ?_⟩
  obtain ⟨r1, e1, d1⟩ := h1.2.2 g
  obtain ⟨r2, e2, d2⟩ := h2.2.2 g
  exact ⟨r2.trans r1, e2.trans e1, d2.trans d1⟩

theorem ports_setValueF (w : World) (j v : Nat) : (setValueF w j v).ports = w.ports := by
  unfold setValueF
  cases getF w j <;> rfl

theorem containers_setValueF (w : World) (j v : Nat) :
    (setValueF w j v).containers = w.containers := by
  unfold setValueF
  cases getF w j <;> rfl

theorem discPres_setValue (w : World) (j v : Nat) : DiscPres w (setValueF w j v) :=
  ⟨ports_setValueF w j v, containers_setValueF w j v, fun g =>
    ⟨(mapProj_setValue w j v g).1, (mapProj_setValue w j v g).2.1,
     (mapProj_setValue w j v g).2.2⟩⟩

theorem discPres_foldValue (l : List Nat) (v : Nat) :
    ∀ w : World, DiscPres w (List.foldl (fun w g => setValueF w g v) w l) := by
  induction l with
  | nil => intro w; exact discPres_refl w
  | cons a rest ih =>
    intro w
    simp only [List.foldl_cons]
    exact discPres_trans (discPres_setValue w a v) (ih (setValueF w a v))

theorem discPres_engineEval (w : World) (pt : SoEngineOutput) :
    DiscPres w (engineEvaluateWrapperF w pt) :=
  discPres_foldValue pt.connections pt.value w

theorem discPres_setF_samerep {w : World} {j : Nat} {old x : SoField}
    (hold : getF w j = some old) (hrep : x.rep = old.rep)
    (hev : x.evaluating = old.evaluating) (hdes : x.destructing = old.destructing) :
    DiscPres w (setF w j x) := by
  refine ⟨rfl, rfl, fun g => ?_⟩
  by_cases hjg : j = g
  · subst hjg
    rw [getF_setF_self _ hold, hold]
    simp [hrep, hev, hdes]
  · rw [getF_setF_ne w _ hjg]
    exact ⟨rfl, rfl, rfl⟩

theorem discPres_evalConn {w : World} {i : Nat} {w2 : World}
    (h : evaluateConnectionF w i = some w2) : DiscPres w w2 := by
  unfold evaluateConnectionF at h
  split at h
  · cases h
  case _ f hw =>
    split at h
    · split at h
      · cases h
      · split at h
        · cases h
        · split at h
          · cases h
          case _ fm hfm =>
            split at h
            · split at h
              · cases h
              · cases h
                exact discPres_setF_samerep hw rfl rfl rfl
            · cases h
              exact discPres_refl w
    · split at h
      · split at h
        · cases h
        · split at h
          · cases h
          · split at h
            · cases h
            case _ pt hpt =>
              split at h
              · cases h
              · cases h
                exact discPres_engineEval w pt
      · cases h

theorem ports_setEvaluatingF (w : World) (i : Nat) (b : Bool) :
    (setEvaluatingF w i b).ports = w.ports := by
  unfold setEvaluatingF
  cases getF w i <;> rfl

theorem containers_setEvaluatingF (w : World) (i : Nat) (b : Bool) :
    (setEvaluatingF w i b).containers = w.containers := by
  unfold setEvaluatingF
  cases getF w i <;> rfl

theorem ports_setDirtyF (w : World) (i : Nat) (b : Bool) :
    (setDirtyF w i b).ports = w.ports := by
  unfold setDirtyF
  cases getF w i <;> rfl

theorem containers_setDirtyF (w : World) (i : Nat) (b : Bool) :
    (setDirtyF w i b).containers = w.containers := by
  unfold setDirtyF
  cases getF w i <;> rfl

theorem discPres_evaluateF {w : World} {i : Nat} {w2 : World}
    (h : evaluateF w i = some w2) : DiscPres w w2 := by
  unfold evaluateF at h
  split at h
  · cases h
  case _ f hw =>
    split at h
    · cases h; exact discPres_refl w
    · split at h
      · cases h; exact discPres_refl w
      · split at h
        · cases h; exact discPres_refl w
        · split at h
          · cases h
          case _ hev =>
            dsimp only [] at h
            split at h
            · cases h
            case _ wc hwc =>
              cases h
              have hdp := discPres_evalConn hwc
              simp only [Bool.not_eq_true] at hev
              refine ⟨?_, ?_, fun g => ?_⟩
              · rw [ports_setDirtyF, ports_setEvaluatingF, hdp.1, ports_setEvaluatingF]
              · rw [containers_setDirtyF, containers_setEvaluatingF, hdp.2.1,
                  containers_setEvaluatingF]
              · by_cases hig : i = g
                · subst hig
                  obtain ⟨hr, he, hd⟩ := hdp.2.2 i
                  rw [getF_setEvaluating_self true hw] at hr he hd
                  cases hfc : getF wc i with
                  | none => rw [hfc] at hr; simp at hr
                  | some fc =>
                    rw [hfc] at hr he hd
                    simp at hr he hd
                    rw [getF_setDirty_self false (getF_setEvaluating_self false hfc), hw]
                    simp [hr, he, hd, hev]
                · rw [getF_setDirty_ne _ false hig, getF_setEvaluating_ne _ false hig]
                  obtain ⟨hr, he, hd⟩ := hdp.2.2 g
                  rw [getF_setEvaluating_ne _ true hig] at hr he hd
                  exact ⟨hr, he, hd⟩

theorem masterfieldsOf_eq {w : World} {i : Nat} {f : SoField} {s : SoConnectStorage}
    (hw : getF w i = some f) (hr : f.rep = FieldRep.ext s) :
    masterfieldsOf w i = s.masterfields := by
  simp [masterfieldsOf, hw, hr]

theorem masterengineoutsOf_eq {w : World} {i : Nat} {f : SoField} {s : SoConnectStorage}
    (hw : getF w i = some f) (hr : f.rep = FieldRep.ext s) :
    masterengineoutsOf w i = s.masterengineouts := by
  simp [masterengineoutsOf, hw, hr]

theorem getC_eq_of_containers {w w' : World} (h : w'.containers = w.containers) (c : Nat) :
    getC w' c = getC w c := by
  unfold getC
  rw [h]

theorem getP_eq_of_ports {w w' : World} (h : w'.ports = w.ports) (p : Nat) :
    getP w' p = getP w p := by
  unfold getP
  rw [h]

/-- Well-formedness for the no-argument `disconnect()`: the field exists and
is not mid-evaluation, no converter is spliced on any of its connections, its
owning container exists and is not itself a converter, it is not its own
master, and every master carries matching back-links — at least as many slave
and auditor entries (for field masters) or connection entries (for
engine-output masters) as there are forward links to it. -/
def WfDisc (w : World) (i : Nat) : Prop :=
  ∃ f, getF w i = some f ∧ f.evaluating = false ∧
    (∀ s, f.rep = FieldRep.ext s → s.maptoconverter = []) ∧
    (∃ c cc, getContainerF w i = some c ∧ getC w c = some cc ∧ cc.isConverter = false) ∧
    i ∉ masterfieldsOf w i ∧
    (∀ m ∈ masterfieldsOf w i, ∃ fm sm, getF w m = some fm ∧ fm.rep = FieldRep.ext sm ∧
      List.count m (masterfieldsOf w i) ≤ List.count i sm.slaves ∧
      List.count m (masterfieldsOf w i) ≤ List.count (AudType.field, i) sm.auditors) ∧
    (∀ p ∈ masterengineoutsOf w i, ∃ pt, getP w p = some pt ∧
      List.count p (masterengineoutsOf w i) ≤ List.count i pt.connections)

theorem wfDisc_of_discPres {w w' : World} {i : Nat} (hwf : WfDisc w i)
    (hp : DiscPres w w') : WfDisc w' i := by
  obtain ⟨f, hw, hev, hconv, ⟨c, cc, hcont, hcc, hncv⟩, hnl, hmas, heng⟩ := hwf
  obtain ⟨hports, hconts, hpt⟩ := hp
  have hri := (hpt i).1
  have hei := (hpt i).2.1
  rw [hw] at hri hei
  cases hfi : getF w' i with
  | none => rw [hfi] at hri; simp at hri
  | some f' =>
    rw [hfi] at hri hei
    simp at hri hei
    have hmf : masterfieldsOf w' i = masterfieldsOf w i := masterfieldsOf_rep_eq (hpt i).1
    have hme : masterengineoutsOf w' i = masterengineoutsOf w i :=
      masterengineoutsOf_rep_eq (hpt i).1
    refine ⟨f', hfi, by rw [hei, hev], ?_, ⟨c, cc, ?_, ?_, hncv⟩, ?_, ?_, ?_⟩
    · intro s hs
      exact hconv s (by rw [← hri]; exact hs)
    · rw [getContainerF_rep_eq (hpt i).1]
      exact hcont
    · rw [getC_eq_of_containers hconts]
      exact hcc
    · rw [hmf]
      exact hnl
    · intro m hm
      rw [hmf] at hm
      obtain ⟨fm, sm, hfm, hrepm, h1, h2⟩ := hmas m hm
      have hrm := (hpt m).1
      rw [hfm] at hrm
      cases hfm' : getF w' m with
      | none => rw [hfm'] at hrm; simp at hrm
      | some fm' =>
        rw [hfm'] at hrm
        simp at hrm
        refine ⟨fm', sm, rfl, by rw [hrm, hrepm], ?_, ?_⟩
        · rw [hmf]; exact h1
        · rw [hmf]; exact h2
    · intro p hp'
      rw [hme] at hp'
      obtain ⟨pt, hp1, hc1⟩ := heng p hp'
      refine ⟨pt, ?_, by rw [hme]; exact hc1⟩
      rw [getP_eq_of_ports hports]
      exact hp1

theorem evalConn_succeeds {w : World} {i : Nat} {f : SoField}
    (hw : getF w i = some f)
    (hconv : ∀ s, f.rep = FieldRep.ext s → s.maptoconverter = [])
    (hmas : ∀ m ∈ masterfieldsOf w i, (getF w m).isSome)
    (heng : ∀ p ∈ masterengineoutsOf w i, (getP w p).isSome)
    (hconn : isConnectedF w i = true) :
    ∃ w2, evaluateConnectionF w i = some w2 := by
  suffices hs : (evaluateConnectionF w i).isSome by
    obtain ⟨w2, hw2⟩ := Option.isSome_iff_exists.mp hs
    exact ⟨w2, hw2⟩
  by_cases hf : isConnectedFromFieldF w i = true
  · have hex : ∃ s, f.rep = FieldRep.ext s ∧ s.masterfields ≠ [] := by
      cases hr : f.rep with
      | plain c => simp [isConnectedFromFieldF, hw, hr] at hf
      | ext s =>
        refine ⟨s, rfl, ?_⟩
        simp [isConnectedFromFieldF, hw, hr] at hf
        exact List.ne_nil_of_length_pos hf
    obtain ⟨s, hr, hne⟩ := hex
    have hmf : masterfieldsOf w i = s.masterfields := masterfieldsOf_eq hw hr
    obtain ⟨m, hlast⟩ :=
      Option.isSome_iff_exists.mp (List.getLast?_isSome.mpr hne)
    have hmmem : m ∈ s.masterfields := by
      obtain ⟨h0, h1⟩ := List.mem_getLast?_eq_getLast (l := s.masterfields) hlast
      rw [h1]
      exact List.getLast_mem h0
    obtain ⟨fm, hfm⟩ :=
      Option.isSome_iff_exists.mp (hmas m (by rw [hmf]; exact hmmem))
    have hmap : s.maptoconverter = [] := hconv s hr
    by_cases hb : (!fm.destructing && !fm.evaluating) = true
    · simp [evaluateConnectionF, hw, hf, hr, hlast, hfm, hb, hmap, findConverterL]
    · simp [evaluateConnectionF, hw, hf, hr, hlast, hfm, hb, hmap, findConverterL]
  · have he : isConnectedFromEngineF w i = true := by
      have hcopy := hconn
      unfold isConnectedF at hcopy
      simp only [Bool.or_eq_true] at hcopy
      rcases hcopy with h | h
      · exact absurd h hf
      · exact h
    have hex : ∃ s, f.rep = FieldRep.ext s ∧ s.masterengineouts ≠ [] := by
      cases hr : f.rep with
      | plain c => simp [isConnectedFromEngineF, hw, hr] at he
      | ext s =>
        refine ⟨s, rfl, ?_⟩
        simp [isConnectedFromEngineF, hw, hr] at he
        exact List.ne_nil_of_length_pos he
    obtain ⟨s, hr, hne⟩ := hex
    have hme : masterengineoutsOf w i = s.masterengineouts := masterengineoutsOf_eq hw hr
    obtain ⟨p, hlast⟩ :=
      Option.isSome_iff_exists.mp (List.getLast?_isSome.mpr hne)
    have hpmem : p ∈ s.masterengineouts := by
      obtain ⟨h0, h1⟩ := List.mem_getLast?_eq_getLast (l := s.masterengineouts) hlast
      rw [h1]
      exact List.getLast_mem h0
    obtain ⟨pt, hpt⟩ :=
      Option.isSome_iff_exists.mp (heng p (by rw [hme]; exact hpmem))
    have hmap : s.maptoconverter = [] := hconv s hr
    simp [evaluateConnectionF, hw, hf, he, hr, hlast, hpt, hmap, findConverterL]

theorem evaluateF_succeeds {w : World} {i : Nat} (hwf : WfDisc w i) :
    ∃ w1, evaluateF w i = some w1 := by
  obtain ⟨f, hw, hev, hconv, _, hnl, hmas, heng⟩ := hwf
  by_cases hd : f.destructing = true
  · exact ⟨w, by simp [evaluateF, hw, hd]⟩
  · by_cases hdirty : f.dirty = false
    · exact ⟨w, by simp [evaluateF, hw, hd, hdirty]⟩
    · by_cases hcn : isConnectedF w i = false
      · exact ⟨w, by simp [evaluateF, hw, hd, hdirty, hcn]⟩
      · have hconn : isConnectedF w i = true := by
          cases hx : isConnectedF w i
          · exact absurd hx hcn
          · rfl
        have hw1 : getF (setEvaluatingF w i true) i = some { f with evaluating := true } :=
          getF_setEvaluating_self true hw
        have hrepeq : ∀ g, (getF (setEvaluatingF w i true) g).map SoField.rep =
            (getF w g).map SoField.rep := fun g => (mapProj_setEvaluating w i true g).1
        have hconn1 : isConnectedF (setEvaluatingF w i true) i = true := by
          rw [isConnectedF_rep_eq (hrepeq i)]
          exact hconn
        have hmas1 : ∀ m ∈ masterfieldsOf (setEvaluatingF w i true) i,
            (getF (setEvaluatingF w i true) m).isSome := by
          intro m hm
          rw [masterfieldsOf_rep_eq (hrepeq i)] at hm
          have h1 := congrArg Option.isSome (hrepeq m)
          simp only [Option.isSome_map'] at h1
          rw [h1]
          obtain ⟨fm, sm, h2, _, _, _⟩ := hmas m hm
          rw [h2]
          rfl
        have heng1 : ∀ p ∈ masterengineoutsOf (setEvaluatingF w i true) i,
            (getP (setEvaluatingF w i true) p).isSome := by
          intro p hp
          rw [masterengineoutsOf_rep_eq (hrepeq i)] at hp
          rw [getP_eq_of_ports (ports_setEvaluatingF w i true)]
          obtain ⟨pt, h1, _⟩ := heng p hp
          rw [h1]
          rfl
        have hconv1 : ∀ s, SoField.rep { f with evaluating := true } = FieldRep.ext s →
            s.maptoconverter = [] := hconv
        obtain ⟨w2, hw2⟩ := evalConn_succeeds hw1 hconv1 hmas1 heng1 hconn1
        refine ⟨setDirtyF (setEvaluatingF w2 i false) i false, ?_⟩
        simp [evaluateF, hw, hd, hdirty, hcn, hev, hw2]

theorem disconnectField_step {w : World} {i m : Nat} {rest : List Nat}
    (hwf : WfDisc w i) (hmf0 : masterfieldsOf w i = m :: rest) :
    ∃ w', disconnectFieldF w i m = some w' ∧ WfDisc w' i ∧
      masterfieldsOf w' i = rest ∧
      masterengineoutsOf w' i = masterengineoutsOf w i := by
  obtain ⟨w1, hev1⟩ := evaluateF_succeeds hwf
  have hdp1 : DiscPres w w1 := discPres_evaluateF hev1
  have hwf1 : WfDisc w1 i := wfDisc_of_discPres hwf hdp1
  have hmf1 : masterfieldsOf w1 i = m :: rest := by
    rw [masterfieldsOf_rep_eq (hdp1.2.2 i).1]
    exact hmf0
  have hme1 : masterengineoutsOf w1 i = masterengineoutsOf w i :=
    masterengineoutsOf_rep_eq (hdp1.2.2 i).1
  obtain ⟨f1, hw1, hevf1, hconv1, ⟨c, cc, hcont1, hcc1, hncv⟩, hnl1, hmas1, heng1⟩ := hwf1
  have hmmem : m ∈ masterfieldsOf w1 i := by
    rw [hmf1]
    exact List.mem_cons_self m rest
  obtain ⟨fm, sm, hfm, hrm, hcs, hca⟩ := hmas1 m hmmem
  have hmi : m ≠ i := fun h => hnl1 (h ▸ hmmem)
  have hcnt1 : 1 ≤ List.count m (masterfieldsOf w1 i) := by
    rw [hmf1, List.count_cons_self]
    omega
  have hslave_mem : i ∈ sm.slaves := List.count_pos_iff.mp (by omega)
  have haud_mem : (AudType.field, i) ∈ sm.auditors := List.count_pos_iff.mp (by omega)
  have hex1 : ∃ s1, f1.rep = FieldRep.ext s1 ∧ s1.masterfields = m :: rest := by
    cases hr : f1.rep with
    | plain c0 =>
      have h := hmf1
      simp [masterfieldsOf, hw1, hr] at h
    | ext s1 =>
      refine ⟨s1, rfl, ?_⟩
      rw [masterfieldsOf_eq hw1 hr] at hmf1
      exact hmf1
  obtain ⟨s1, hr1, hs1⟩ := hex1
  have hmap1 : s1.maptoconverter = [] := hconv1 s1 hr1
  have hcontc : s1.container = some c := by
    have h := hcont1
    simp [getContainerF, hw1, hr1] at h
    exact h
  have hrem1 : removeItemF sm.slaves i = some (sm.slaves.erase i) := by
    simp [removeItemF, hslave_mem]
  have hrem2 : removeItemF s1.masterfields m = some rest := by
    rw [hs1]
    simp [removeItemF, List.erase_cons_head]
  have hrem3 : removeAudItemF sm.auditors (AudType.field, i) =
      some (sm.auditors.erase (AudType.field, i)) := by
    simp [removeAudItemF, haud_mem]
  have hfc : findConverterL s1.maptoconverter (false, m) = none := by
    rw [hmap1]
    rfl
  have hw2i : getF (setF w1 m
      { fm with rep := FieldRep.ext { sm with slaves := sm.slaves.erase i } }) i = some f1 := by
    rw [getF_setF_ne w1 _ hmi]
    exact hw1
  have hw3m : getF (setF (setF w1 m
      { fm with rep := FieldRep.ext { sm with slaves := sm.slaves.erase i } }) i
      { f1 with rep := FieldRep.ext { s1 with masterfields := rest } }) m =
      some { fm with rep := FieldRep.ext { sm with slaves := sm.slaves.erase i } } := by
    rw [getF_setF_ne _ _ (Ne.symm hmi)]
    exact getF_setF_self _ hfm
  have hraud : removeAuditorF (setF (setF w1 m
      { fm with rep := FieldRep.ext { sm with slaves := sm.slaves.erase i } }) i
      { f1 with rep := FieldRep.ext { s1 with masterfields := rest } }) m (AudType.field, i) =
      some (setF (setF (setF w1 m
        { fm with rep := FieldRep.ext { sm with slaves := sm.slaves.erase i } }) i
        { f1 with rep := FieldRep.ext { s1 with masterfields := rest } }) m
        { fm with rep := FieldRep.ext { sm with slaves := sm.slaves.erase i, auditors := sm.auditors.erase (AudType.field, i) } }) := by
    simp only [removeAuditorF, hw3m, hrem3]
    rfl
  have hstep : disconnectFieldF w i m =
      some (setF (setF (setF w1 m
        { fm with rep := FieldRep.ext { sm with slaves := sm.slaves.erase i } }) i
        { f1 with rep := FieldRep.ext { s1 with masterfields := rest } }) m
        { fm with rep := FieldRep.ext { sm with slaves := sm.slaves.erase i, auditors := sm.auditors.erase (AudType.field, i) } }) := by
    simp only [disconnectFieldF, hev1, hcont1, hcc1, hncv, Bool.false_eq_true, if_false,
      hfm, hrm, hrem1, hw2i, hr1, hrem2, hfc, hraud]
  have hgFi : getF (setF (setF (setF w1 m
      { fm with rep := FieldRep.ext { sm with slaves := sm.slaves.erase i } }) i
      { f1 with rep := FieldRep.ext { s1 with masterfields := rest } }) m
      { fm with rep := FieldRep.ext { sm with slaves := sm.slaves.erase i, auditors := sm.auditors.erase (AudType.field, i) } }) i =
      some { f1 with rep := FieldRep.ext { s1 with masterfields := rest } } := by
    rw [getF_setF_ne _ _ hmi]
    exact getF_setF_self _ hw2i
  have hgFm : getF (setF (setF (setF w1 m
      { fm with rep := FieldRep.ext { sm with slaves := sm.slaves.erase i } }) i
      { f1 with rep := FieldRep.ext { s1 with masterfields := rest } }) m
      { fm with rep := FieldRep.ext { sm with slaves := sm.slaves.erase i, auditors := sm.auditors.erase (AudType.field, i) } }) m =
      some { fm with rep := FieldRep.ext { sm with slaves := sm.slaves.erase i, auditors := sm.auditors.erase (AudType.field, i) } } :=
    getF_setF_self _ hw3m
  have hgFo : ∀ g, g ≠ i → g ≠ m → getF (setF (setF (setF w1 m
      { fm with rep := FieldRep.ext { sm with slaves := sm.slaves.erase i } }) i
      { f1 with rep := FieldRep.ext { s1 with masterfields := rest } }) m
      { fm with rep := FieldRep.ext { sm with slaves := sm.slaves.erase i, auditors := sm.auditors.erase (AudType.field, i) } }) g = getF w1 g := by
    intro g hgi hgm
    rw [getF_setF_ne _ _ (Ne.symm hgm), getF_setF_ne _ _ (Ne.symm hgi),
      getF_setF_ne _ _ (Ne.symm hgm)]
  have hmfW : masterfieldsOf (setF (setF (setF w1 m
      { fm with rep := FieldRep.ext { sm with slaves := sm.slaves.erase i } }) i
      { f1 with rep := FieldRep.ext { s1 with masterfields := rest } }) m
      { fm with rep := FieldRep.ext { sm with slaves := sm.slaves.erase i, auditors := sm.auditors.erase (AudType.field, i) } }) i = rest := by
    rw [masterfieldsOf_eq hgFi rfl]
  have hmeW : masterengineoutsOf (setF (setF (setF w1 m
      { fm with rep := FieldRep.ext { sm with slaves := sm.slaves.erase i } }) i
      { f1 with rep := FieldRep.ext { s1 with masterfields := rest } }) m
      { fm with rep := FieldRep.ext { sm with slaves := sm.slaves.erase i, auditors := sm.auditors.erase (AudType.field, i) } }) i = masterengineoutsOf w i := by
    rw [masterengineoutsOf_eq hgFi rfl, ← hme1, masterengineoutsOf_eq hw1 hr1]
  refine ⟨_, hstep, ?_, hmfW, hmeW⟩
  refine ⟨_, hgFi, hevf1, ?_, ⟨c, cc, ?_, ?_, hncv⟩, ?_, ?_, ?_⟩
  · intro s hs
    injection hs with h
    rw [← h]
    exact hmap1
  · simp only [getContainerF, hgFi]
    exact hcontc
  · rw [getC_eq_of_containers rfl]
    exact hcc1
  · rw [hmfW]
    intro h
    exact hnl1 (by rw [hmf1]; exact List.mem_cons_of_mem m h)
  · intro m' hm'
    rw [hmfW] at hm'
    by_cases hmm : m' = m
    · subst hmm
      refine ⟨_, _, hgFm, rfl, ?_, ?_⟩
      · rw [hmfW]
        rw [hmf1, List.count_cons_self] at hcs
        have he1 : List.count i (sm.slaves.erase i) = List.count i sm.slaves - 1 :=
          List.count_erase_self i sm.slaves
        rw [show SoConnectStorage.slaves { sm with slaves := sm.slaves.erase i, auditors := sm.auditors.erase (AudType.field, i) } = sm.slaves.erase i from rfl, he1]
        omega
      · rw [hmfW]
        rw [hmf1, List.count_cons_self] at hca
        have he2 : List.count (AudType.field, i) (sm.auditors.erase (AudType.field, i)) =
            List.count (AudType.field, i) sm.auditors - 1 :=
          List.count_erase_self (AudType.field, i) sm.auditors
        rw [show SoConnectStorage.auditors { sm with slaves := sm.slaves.erase i, auditors := sm.auditors.erase (AudType.field, i) } = sm.auditors.erase (AudType.field, i) from rfl, he2]
        omega
    · have hm'i : m' ≠ i := fun h =>
        hnl1 (by rw [hmf1]; exact h ▸ List.mem_cons_of_mem m hm')
      have hm1 : m' ∈ masterfieldsOf w1 i := by
        rw [hmf1]
        exact List.mem_cons_of_mem m hm'
      obtain ⟨fm3, sm3, hf3, hr3, h31, h32⟩ := hmas1 m' hm1
      refine ⟨fm3, sm3, ?_, hr3, ?_, ?_⟩
      · rw [hgFo m' hm'i hmm]
        exact hf3
      · rw [hmfW]
        rw [hmf1, List.count_cons_of_ne hmm] at h31
        exact h31
      · rw [hmfW]
        rw [hmf1, List.count_cons_of_ne hmm] at h32
        exact h32
  · intro p hp
    rw [hmeW, ← hme1] at hp
    obtain ⟨pt, hpp, hpc⟩ := heng1 p hp
    refine ⟨pt, ?_, ?_⟩
    · rw [getP_eq_of_ports rfl]
      exact hpp
    · rw [hmeW, ← hme1]
      exact hpc

theorem getF_setP (w : World) (p : Nat) (x : SoEngineOutput) (g : Nat) :
    getF (setP w p x) g = getF w g := rfl

theorem containers_setP (w : World) (p : Nat) (x : SoEngineOutput) :
    (setP w p x).containers = w.containers := rfl

theorem getP_setP_self {w : World} {p : Nat} {old : SoEngineOutput} (x : SoEngineOutput)
    (h : getP w p = some old) : getP (setP w p x) p = some x := by
  have hlt : p < w.ports.length := by
    by_contra hge
    simp [getP, List.getElem?_eq_none (Nat.le_of_not_lt hge)] at h
  simp [getP, setP, List.getElem?_set_eq_of_lt _ hlt]

theorem getP_setP_ne {p q : Nat} (w : World) (x : SoEngineOutput) (h : p ≠ q) :
    getP (setP w p x) q = getP w q := by
  simp [getP, setP, List.getElem?_set_ne h]

theorem isConnectedFromFieldF_eq_false_of {w : World} {i : Nat}
    (h : masterfieldsOf w i = []) : isConnectedFromFieldF w i = false := by
  unfold isConnectedFromFieldF
  cases hg : getF w i with
  | none => rfl
  | some f =>
    cases hr : f.rep with
    | plain c => simp [hr]
    | ext s =>
      rw [masterfieldsOf_eq hg hr] at h
      simp [hr, h]

theorem isConnectedFromEngineF_eq_false_of {w : World} {i : Nat}
    (h : masterengineoutsOf w i = []) : isConnectedFromEngineF w i = false := by
  unfold isConnectedFromEngineF
  cases hg : getF w i with
  | none => rfl
  | some f =>
    cases hr : f.rep with
    | plain c => simp [hr]
    | ext s =>
      rw [masterengineoutsOf_eq hg hr] at h
      simp [hr, h]

theorem getC_setP (w : World) (p : Nat) (x : SoEngineOutput) (c : Nat) :
    getC (setP w p x) c = getC w c := rfl

theorem getC_setF (w : World) (i : Nat) (f : SoField) (c : Nat) :
    getC (setF w i f) c = getC w c := rfl

theorem disconnectEngine_step {w : World} {i p : Nat} {rest : List Nat}
    (hwf : WfDisc w i) (hme0 : masterengineoutsOf w i = p :: rest) :
    ∃ w', disconnectEngineF w i p = some w' ∧ WfDisc w' i ∧
      masterengineoutsOf w' i = rest ∧
      masterfieldsOf w' i = masterfieldsOf w i := by
  obtain ⟨f0, hw0, hev0, hconv0, ⟨c, cc, hcont0, hcc0, hncv⟩, hnl0, hmas0, heng0⟩ := id hwf
  have hpmem : p ∈ masterengineoutsOf w i := by
    rw [hme0]
    exact List.mem_cons_self p rest
  obtain ⟨pt, hpt, hpc⟩ := heng0 p hpmem
  have hevw : ∃ w1, (if pt.enabled then evaluateF w i else some w) = some w1 ∧
      DiscPres w w1 := by
    by_cases hen : pt.enabled = true
    · obtain ⟨w1, h1⟩ := evaluateF_succeeds hwf
      exact ⟨w1, by rw [if_pos hen]; exact h1, discPres_evaluateF h1⟩
    · exact ⟨w, by rw [if_neg hen], discPres_refl w⟩
  obtain ⟨w1, hif, hdp1⟩ := hevw
  have hwf1 : WfDisc w1 i := wfDisc_of_discPres hwf hdp1
  have hme1 : masterengineoutsOf w1 i = p :: rest := by
    rw [masterengineoutsOf_rep_eq (hdp1.2.2 i).1]
    exact hme0
  have hmf1 : masterfieldsOf w1 i = masterfieldsOf w i :=
    masterfieldsOf_rep_eq (hdp1.2.2 i).1
  obtain ⟨f1, hw1, hevf1, hconv1, _, hnl1, hmas1, heng1⟩ := hwf1
  have hex1 : ∃ s1, f1.rep = FieldRep.ext s1 ∧ s1.masterengineouts = p :: rest := by
    cases hr : f1.rep with
    | plain c0 =>
      have h := hme1
      simp [masterengineoutsOf, hw1, hr] at h
    | ext s1 =>
      refine ⟨s1, rfl, ?_⟩
      rw [masterengineoutsOf_eq hw1 hr] at hme1
      exact hme1
  obtain ⟨s1, hr1, hs1⟩ := hex1
  have hmap1 : s1.maptoconverter = [] := hconv1 s1 hr1
  have hcontc : s1.container = some c := by
    have h : getContainerF w1 i = some c := by
      rw [getContainerF_rep_eq (hdp1.2.2 i).1]
      exact hcont0
    simp [getContainerF, hw1, hr1] at h
    exact h
  have hrem2 : removeItemF s1.masterengineouts p = some rest := by
    rw [hs1]
    simp [removeItemF, List.erase_cons_head]
  have hfc : findConverterL s1.maptoconverter (true, p) = none := by
    rw [hmap1]
    rfl
  have hpt1 : getP w1 p = some pt := by
    rw [getP_eq_of_ports hdp1.1]
    exact hpt
  have hpt2 : getP (setF w1 i
      { f1 with rep := FieldRep.ext { s1 with masterengineouts := rest } }) p = some pt := by
    rw [getP_eq_of_ports (ports_setF w1 i _)]
    exact hpt1
  have hconn_mem : i ∈ pt.connections := by
    rw [hme0, List.count_cons_self] at hpc
    exact List.count_pos_iff.mp (by omega)
  have hrem4 : removeItemF pt.connections i = some (pt.connections.erase i) := by
    simp [removeItemF, hconn_mem]
  have hstep : disconnectEngineF w i p =
      some (setP (setF w1 i
        { f1 with rep := FieldRep.ext { s1 with masterengineouts := rest } }) p
        { pt with connections := pt.connections.erase i }) := by
    simp only [disconnectEngineF, hcont0, hcc0, hncv, Bool.false_eq_true, if_false,
      hpt, hif, hw1, hr1, hrem2, hfc, hpt2, hrem4]
  have hgFi : getF (setP (setF w1 i
      { f1 with rep := FieldRep.ext { s1 with masterengineouts := rest } }) p
      { pt with connections := pt.connections.erase i }) i =
      some { f1 with rep := FieldRep.ext { s1 with masterengineouts := rest } } := by
    rw [getF_setP]
    exact getF_setF_self _ hw1
  have hgFo : ∀ g, g ≠ i → getF (setP (setF w1 i
      { f1 with rep := FieldRep.ext { s1 with masterengineouts := rest } }) p
      { pt with connections := pt.connections.erase i }) g = getF w1 g := by
    intro g hgi
    rw [getF_setP]
    exact getF_setF_ne _ _ (Ne.symm hgi)
  have hmeW : masterengineoutsOf (setP (setF w1 i
      { f1 with rep := FieldRep.ext { s1 with masterengineouts := rest } }) p
      { pt with connections := pt.connections.erase i }) i = rest := by
    rw [masterengineoutsOf_eq hgFi rfl]
  have hmfW : masterfieldsOf (setP (setF w1 i
      { f1 with rep := FieldRep.ext { s1 with masterengineouts := rest } }) p
      { pt with connections := pt.connections.erase i }) i = masterfieldsOf w i := by
    rw [masterfieldsOf_eq hgFi rfl, ← hmf1, masterfieldsOf_eq hw1 hr1]
  refine ⟨_, hstep, ?_, hmeW, hmfW⟩
  refine ⟨_, hgFi, hevf1, ?_, ⟨c, cc, ?_, ?_, hncv⟩, ?_, ?_, ?_⟩
  · intro s hs
    injection hs with h
    rw [← h]
    exact hmap1
  · simp only [getContainerF, hgFi]
    exact hcontc
  · rw [getC_setP, getC_setF, getC_eq_of_containers hdp1.2.1]
    exact hcc0
  · rw [hmfW]
    exact hnl0
  · intro m hm
    rw [hmfW, ← hmf1] at hm
    obtain ⟨fm3, sm3, hf3, hr3, h31, h32⟩ := hmas1 m hm
    have hmion : m ≠ i := fun h => hnl1 (h ▸ hm)
    refine ⟨fm3, sm3, ?_, hr3, ?_, ?_⟩
    · rw [hgFo m hmion]
      exact hf3
    · rw [hmfW, ← hmf1]
      exact h31
    · rw [hmfW, ← hmf1]
      exact h32
  · intro p' hp'
    rw [hmeW] at hp'
    by_cases hpp : p' = p
    · subst hpp
      refine ⟨_, getP_setP_self _ hpt2, ?_⟩
      rw [hmeW, show SoEngineOutput.connections
        { pt with connections := pt.connections.erase i } = pt.connections.erase i from rfl,
        List.count_erase_self]
      rw [hme0, List.count_cons_self] at hpc
      omega
    · have hp'w : p' ∈ masterengineoutsOf w i := by
        rw [hme0]
        exact List.mem_cons_of_mem p hp'
      obtain ⟨pt3, hpt3, hpc3⟩ := heng0 p' hp'w
      refine ⟨pt3, ?_, ?_⟩
      · rw [getP_setP_ne _ _ (Ne.symm hpp), getP_eq_of_ports (ports_setF w1 i _),
          getP_eq_of_ports hdp1.1]
        exact hpt3
      · rw [hmeW]
        rw [hme0, List.count_cons_of_ne hpp] at hpc3
        exact hpc3

theorem disconnectAllFields_done : ∀ (fuel : Nat) (w : World) (i : Nat), WfDisc w i →
    (masterfieldsOf w i).length ≤ fuel →
    ∃ w', disconnectAllFieldsF fuel w i = some w' ∧ WfDisc w' i ∧
      masterfieldsOf w' i = [] ∧ masterengineoutsOf w' i = masterengineoutsOf w i := by
  intro fuel
  induction fuel with
  | zero =>
    intro w i hwf hlen
    have hmf : masterfieldsOf w i = [] :=
      List.eq_nil_of_length_eq_zero (Nat.le_zero.mp hlen)
    refine ⟨w, ?_, hwf, hmf, rfl⟩
    simp [disconnectAllFieldsF, isConnectedFromFieldF_eq_false_of hmf]
  | succ k ih =>
    intro w i hwf hlen
    cases hmf : masterfieldsOf w i with
    | nil =>
      refine ⟨w, ?_, hwf, hmf, rfl⟩
      simp [disconnectAllFieldsF, hmf]
    | cons m rest =>
      obtain ⟨w2, hstep, hwf2, hmf2, hme2⟩ := disconnectField_step hwf hmf
      have hlen2 : (masterfieldsOf w2 i).length ≤ k := by
        rw [hmf2]
        rw [hmf] at hlen
        simp only [List.length_cons] at hlen
        omega
      obtain ⟨w', hrec, hwf', hmf', hme'⟩ := ih w2 i hwf2 hlen2
      refine ⟨w', ?_, hwf', hmf', by rw [hme', hme2]⟩
      simp [disconnectAllFieldsF, hmf, hstep, hrec]

theorem disconnectAllEngines_done : ∀ (fuel : Nat) (w : World) (i : Nat), WfDisc w i →
    (masterengineoutsOf w i).length ≤ fuel →
    ∃ w', disconnectAllEnginesF fuel w i = some w' ∧ WfDisc w' i ∧
      masterengineoutsOf w' i = [] ∧ masterfieldsOf w' i = masterfieldsOf w i := by
  intro fuel
  induction fuel with
  | zero =>
    intro w i hwf hlen
    have hme : masterengineoutsOf w i = [] :=
      List.eq_nil_of_length_eq_zero (Nat.le_zero.mp hlen)
    refine ⟨w, ?_, hwf, hme, rfl⟩
    simp [disconnectAllEnginesF, isConnectedFromEngineF_eq_false_of hme]
  | succ k ih =>
    intro w i hwf hlen
    cases hme : masterengineoutsOf w i with
    | nil =>
      refine ⟨w, ?_, hwf, hme, rfl⟩
      simp [disconnectAllEnginesF, hme]
    | cons p rest =>
      obtain ⟨w2, hstep, hwf2, hme2, hmf2⟩ := disconnectEngine_step hwf hme
      have hlen2 : (masterengineoutsOf w2 i).length ≤ k := by
        rw [hme2]
        rw [hme] at hlen
        simp only [List.length_cons] at hlen
        omega
      obtain ⟨w', hrec, hwf', hme', hmf'⟩ := ih w2 i hwf2 hlen2
      refine ⟨w', ?_, hwf', hme', by rw [hmf', hmf2]⟩
      simp [disconnectAllEnginesF, hme, hstep, hrec]

/-- C3: the no-argument `disconnect()` severs every master-field and
master-port connection.  Under well-formed back-links (`WfDisc`: the field
exists and is not mid-evaluation, no converter is spliced in, its container
is not a converter, and every master holds matching slave / auditor /
connection back-links) and with fuel covering the lengths of both master
lists, both while-loops terminate — although each iteration re-reads index 0
of the live, mutating list — and the final assertion's post-condition
`isConnected() == FALSE` holds in the resulting world.  Works also when the
field has field-masters and port-masters at the same time. -/
theorem C3_disconnect_all_severs (fuel : Nat) (w : World) (i : Nat)
    (hwf : WfDisc w i)
    (h1 : (masterfieldsOf w i).length ≤ fuel)
    (h2 : (masterengineoutsOf w i).length ≤ fuel) :
    ∃ w', disconnectAllF fuel w i = some w' ∧ isConnectedF w' i = false := by
  obtain ⟨wa, hra, hwfa, hmfa, hmea⟩ := disconnectAllFields_done fuel w i hwf h1
  have h2a : (masterengineoutsOf wa i).length ≤ fuel := by
    rw [hmea]
    exact h2
  obtain ⟨wb, hrb, hwfb, hmeb, hmfb⟩ := disconnectAllEngines_done fuel wa i hwfa h2a
  have hmfbnil : masterfieldsOf wb i = [] := by
    rw [hmfb]
    exact hmfa
  have hnc : isConnectedF wb i = false := by
    unfold isConnectedF
    rw [isConnectedFromFieldF_eq_false_of hmfbnil, isConnectedFromEngineF_eq_false_of hmeb]
    rfl
  refine ⟨wb, ?_, hnc⟩
  simp [disconnectAllF, hra, hrb, hnc]

/-- Witness world for C3: field 0 (dirty, with owning container 0) is
connected both from master field 1 and from engine output 0; the master
carries the matching slave and auditor entries, the port the matching
connection entry. -/
def c3slave : SoField :=
  { SoField.init 5 with dirty := true, rep := FieldRep.ext ⟨some 0, 5, [1], [0], [], [], []⟩ }

def c3master : SoField :=
  { SoField.init 5 with rep := FieldRep.ext ⟨some 1, 5, [], [], [0], [(AudType.field, 0)], []⟩ }

def c3w : World :=
  ⟨[c3slave, c3master], [⟨5, true, 42, [0], some 1⟩], [⟨false⟩, ⟨false⟩], [], 0⟩

theorem c3wf : WfDisc c3w 0 := by
  refine ⟨c3slave, by decide, by decide, ?_,
    ⟨0, ⟨false⟩, by decide, by decide, by decide⟩, by decide, ?_, ?_⟩
  · intro s hs
    injection hs with h
    rw [← h]
  · intro m hm
    have he : masterfieldsOf c3w 0 = [1] := by decide
    rw [he] at hm
    have hm' : m = 1 := by simpa using hm
    subst hm'
    exact ⟨c3master, ⟨some 1, 5, [], [], [0], [(AudType.field, 0)], []⟩,
      by decide, by decide, by decide, by decide⟩
  · intro p hp
    have he : masterengineoutsOf c3w 0 = [0] := by decide
    rw [he] at hp
    have hp' : p = 0 := by simpa using hp
    subst hp'
    exact ⟨⟨5, true, 42, [0], some 1⟩, by decide, by decide⟩

theorem C3_disconnect_all_severs_witness :
    WfDisc c3w 0 ∧ (masterfieldsOf c3w 0).length ≤ 2 ∧
    (masterengineoutsOf c3w 0).length ≤ 2 ∧
    ∃ w', disconnectAllF 2 c3w 0 = some w' ∧ isConnectedF w' 0 = false :=
  ⟨c3wf, by decide, by decide,
    C3_disconnect_all_severs 2 c3w 0 c3wf (by decide) (by decide)⟩
